import Mathlib

/-!
Verification of the octa asset service against its specification.

This file gives a shallow embedding, in Lean, of the request-serving and
storage-maintenance core of the octa repository (a Go HTTP service that
stores image blobs under human-readable aliases and generates deterministic
avatars).  Each Go function that a claim depends on is translated into an
executable Lean definition; theorems about those definitions settle the
claims.

Modelling conventions used throughout:

- Go `int64` / `int` values are modelled as `Int`; machine wrap-around is
  applied explicitly (`wrap64`) where the source can overflow.
- Go `time.Time` values are modelled as `Int` instants; operations that read
  the ambient clock receive the instant as an explicit `now` argument.
- Go byte slices are modelled as `List Nat`.
- Go float64 arithmetic on configuration constants is modelled by exact
  rational or integer arithmetic; the places where the source truncates a
  float product to int64 (`0.80 * maxSize`, `0.85 * limit`) are modelled as
  exact integer floors, which agree with the float computation for all
  realistic configuration magnitudes.
- Go maps are modelled as association lists with pairwise-distinct keys;
  list order carries no meaning.
-/

set_option linter.unusedVariables false

namespace Octa

/-! ## Blob cache (src/pkg/cache/memory.go)

The in-memory cache is a map from string keys to entries carrying the byte
payload, an absolute expiry instant and the byte size.  `totalSize` is the
running sum the source maintains incrementally.
-/

/-- One cache entry; Go type `Item` in src/pkg/cache/memory.go. -/
structure Item where
  data : List Nat
  expiresAt : Int
  size : Int
deriving Repr, DecidableEq

/-- Cache state; Go type `MemoryCache` in src/pkg/cache/memory.go.
The Go map `items` is modelled as an association list with distinct keys. -/
structure MemoryCache where
  enabled : Bool
  items : List (String × Item)
  totalSize : Int
  maxSize : Int
  ttl : Int
deriving Repr, DecidableEq

/-- Lookup in the items map (`c.items[key]`). -/
def mapGet (l : List (String × Item)) (k : String) : Option Item :=
  (l.find? (fun p => p.1 == k)).map (fun p => p.2)

/-- Removal from the items map (`delete(c.items, key)`). -/
def eraseKey (l : List (String × Item)) (k : String) : List (String × Item) :=
  l.filter (fun p => p.1 != k)

/-- Sum of the `size` fields of all entries. -/
def sumSizes (l : List (String × Item)) : Int :=
  (l.map (fun p => p.2.size)).sum

/-- Ordering of entries by expiry instant, used by `prune` to sort its
eviction candidates (`sort.Slice` by `ExpiresAt.Before`). -/
def expLe (a b : String × Item) : Prop := a.2.expiresAt ≤ b.2.expiresAt

instance : DecidableRel expLe := fun a b => Int.decLe a.2.expiresAt b.2.expiresAt

instance : IsTotal (String × Item) expLe := ⟨fun a b => Int.le_total a.2.expiresAt b.2.expiresAt⟩

instance : IsTrans (String × Item) expLe := ⟨fun _ _ _ hab hbc => le_trans hab hbc⟩

/-- Candidate list sorted by ascending expiry.  The Go source uses an
unstable `sort.Slice` over candidates collected from an unordered map, so
the order among entries with equal expiry is unspecified there; insertion
sort fixes one admissible linearization, and no theorem below depends on
how ties are broken. -/
def sortByExpiry (l : List (String × Item)) : List (String × Item) :=
  List.insertionSort expLe l

/-- Eviction target of `prune`: the source computes
`int64(float64(c.maxSize) * 0.80)`; modelled as the exact floor of
`4 * maxSize / 5` (`Int.tdiv` truncates toward zero like Go `int64`
conversion). -/
def pruneTarget (maxSize : Int) : Int := Int.tdiv (4 * maxSize) 5

/-- The eviction loop of `MemoryCache.prune`: walk the sorted candidates,
stop as soon as the running total is at or below the target, otherwise
evict the candidate and subtract its size.  Returns the final total and the
surviving candidates. -/
def dropEvict (target : Int) : Int → List (String × Item) → Int × List (String × Item)
  | total, [] => (total, [])
  | total, p :: rest =>
    if total ≤ target then (total, p :: rest)
    else dropEvict target (total - p.2.size) rest

/-- `MemoryCache.prune` (src/pkg/cache/memory.go).  The map after pruning
contains exactly the candidates the loop did not evict; since map order is
meaningless, the state is represented by the surviving suffix of the sorted
candidate list. -/
def MemoryCache.prune (c : MemoryCache) : MemoryCache :=
  if c.items.isEmpty then c
  else
    let res := dropEvict (pruneTarget c.maxSize) c.totalSize (sortByExpiry c.items)
    { c with totalSize := res.1, items := res.2 }

/-- The tail of `MemoryCache.Set` after the admission checks and the
optional prune: decrement the overwritten entry, store the new entry,
increment the total. -/
def MemoryCache.insertEntry (c : MemoryCache) (now : Int) (key : String) (data : List Nat) :
    MemoryCache :=
  let size : Int := data.length
  match mapGet c.items key with
  | some old =>
      { c with items := (key, ⟨data, now + c.ttl, size⟩) :: eraseKey c.items key,
               totalSize := c.totalSize - old.size + size }
  | none =>
      { c with items := (key, ⟨data, now + c.ttl, size⟩) :: c.items,
               totalSize := c.totalSize + size }

/-- `MemoryCache.Set` (src/pkg/cache/memory.go): no-op when disabled;
reject entries larger than half the capacity or larger than 512 KiB; prune
when the incoming entry would lift `totalSize` above `maxSize`; then insert
with expiry `now + ttl`. -/
def MemoryCache.set (c : MemoryCache) (now : Int) (key : String) (data : List Nat) :
    MemoryCache :=
  if c.enabled = false then c
  else if Int.tdiv c.maxSize 2 < (data.length : Int) then c
  else if (512 * 1024 : Int) < (data.length : Int) then c
  else if c.maxSize < c.totalSize + (data.length : Int) then
    (c.prune).insertEntry now key data
  else c.insertEntry now key data

/-- `MemoryCache.Get`: miss when disabled, absent, or expired
(`time.Now().After(item.ExpiresAt)`); reads never mutate the cache. -/
def MemoryCache.get (c : MemoryCache) (now : Int) (key : String) : Option (List Nat) :=
  if c.enabled = false then none
  else match mapGet c.items key with
    | none => none
    | some it => if it.expiresAt < now then none else some it.data

/-- `MemoryCache.Delete`: remove the entry if present and decrement the
total by its size. -/
def MemoryCache.del (c : MemoryCache) (key : String) : MemoryCache :=
  if c.enabled = false then c
  else match mapGet c.items key with
    | some it => { c with items := eraseKey c.items key, totalSize := c.totalSize - it.size }
    | none => c

/-- Expiry test used by the GC sweep (`now.After(v.ExpiresAt)`). -/
def expiredB (now : Int) (p : String × Item) : Bool := decide (p.2.expiresAt < now)

/-- One tick of the background GC worker `startGC`: remove every expired
entry and subtract the freed bytes from the total. -/
def MemoryCache.gcSweep (c : MemoryCache) (now : Int) : MemoryCache :=
  if c.items.isEmpty then c
  else
    { c with items := c.items.filter (fun p => !(expiredB now p)),
             totalSize := c.totalSize - sumSizes (c.items.filter (expiredB now)) }

/-- The cache operations whose sequences the specification quantifies over. -/
inductive CacheOp where
  | setOp (now : Int) (key : String) (data : List Nat)
  | getOp (now : Int) (key : String)
  | delOp (key : String)
  | pruneOp
  | gcOp (now : Int)
deriving Repr, DecidableEq

/-- Apply one cache operation.  `Get` does not mutate the state. -/
def applyCacheOp (c : MemoryCache) : CacheOp → MemoryCache
  | .setOp now key data => c.set now key data
  | .getOp _ _ => c
  | .delOp key => c.del key
  | .pruneOp => c.prune
  | .gcOp now => c.gcSweep now

/-- Run a sequence of cache operations. -/
def runCacheOps (c : MemoryCache) : List CacheOp → MemoryCache
  | [] => c
  | op :: rest => runCacheOps (applyCacheOp c op) rest

/-- Well-formedness: the association list really is a map (distinct keys). -/
abbrev cacheKeysNodup (c : MemoryCache) : Prop := (c.items.map (fun p => p.1)).Nodup

/-- The invariant of the claim: the maintained running total equals the sum
of the entry sizes. -/
abbrev cacheSizeInv (c : MemoryCache) : Prop := c.totalSize = sumSizes c.items

/-- Concrete cache used to witness the invariant theorem: enabled, empty,
capacity 1000 bytes, ttl 10. -/
def cacheW5 : MemoryCache := ⟨true, [], 0, 1000, 10⟩

/-- Concrete operation sequence used to witness the invariant theorem. -/
def cacheW5Ops : List CacheOp :=
  [.setOp 0 "a" [1, 2, 3], .setOp 1 "b" [7, 7, 7, 7], .getOp 2 "a",
   .delOp "a", .gcOp 100, .pruneOp, .setOp 3 "c" [5], .delOp "missing"]

/-- Concrete cache used to witness the eviction-ordering theorem: three
3-byte entries with expiries 10 < 20 < 30, total 9 of capacity 10. -/
def cacheW6 : MemoryCache :=
  ⟨true, [("a", ⟨[0, 0, 0], 10, 3⟩), ("b", ⟨[0, 0, 0], 20, 3⟩), ("c", ⟨[0, 0, 0], 30, 3⟩)],
   9, 10, 100⟩

/-! ## Go string helpers

The concrete theorems below must evaluate inside the kernel, so the string
manipulation the service performs (splitting, trimming, case mapping) is
defined here over `List Char` rather than through the built-in `String`
functions.  Case mapping is ASCII, which covers every string the service
compares against.
-/

/-- Splitting of a character list at every character satisfying `p`
(empty pieces preserved), the common core of `strings.Split` with a
one-character separator and of `strings.Fields`. -/
def splitByPred (p : Char → Bool) : List Char → List (List Char)
  | [] => [[]]
  | c :: rest =>
    let r := splitByPred p rest
    if p c then [] :: r
    else
      match r with
      | [] => [[c]]
      | w :: ws => (c :: w) :: ws

/-- `strings.Split` with a one-character separator (used with "/" and ","). -/
def splitStr (sep : Char) (s : String) : List String :=
  (splitByPred (fun c => c == sep) s.toList).map (fun w => (⟨w⟩ : String))

/-- `strings.ToLower`, ASCII. -/
def lowerStr (s : String) : String := ⟨s.toList.map Char.toLower⟩

/-- `strings.TrimSpace`. -/
def trimSpaces (s : String) : String :=
  ⟨((s.toList.dropWhile Char.isWhitespace).reverse.dropWhile Char.isWhitespace).reverse⟩

/-- The accumulation loop of `utils.GetInitials`: append the uppercased
first rune of each non-empty word, stopping once two initials have been
collected (the length test runs after the append, as in the source). -/
def initialsAux : List (List Char) → List Char → List Char
  | [], acc => acc
  | w :: rest, acc =>
    let acc' :=
      match w with
      | [] => acc
      | c :: _ => acc ++ [c.toUpper]
    if 2 ≤ acc'.length then acc' else initialsAux rest acc'

/-- `utils.GetInitials` (src/unnamed/part_002): first letters of the first
two whitespace-separated words, uppercased; when no word yields a letter,
the first character of the whole seed, uppercased. -/
def GetInitials (name : String) : String :=
  let words := splitByPred Char.isWhitespace name.toList
  let initials := initialsAux words []
  let initials :=
    if initials.isEmpty then
      match name.toList with
      | [] => []
      | c :: _ => [c.toUpper]
    else initials
  ⟨initials⟩

/-- Two-complement wrap of a mathematical integer into the int64 range,
used where Go 64-bit arithmetic can overflow. -/
def wrap64 (x : Int) : Int := (x + 2 ^ 63) % 2 ^ 64 - 2 ^ 63

/-- The seed hash `hash = int(c) + ((hash<<5) - hash)` over the runes of
the name followed by `if hash < 0 then hash = -hash`, shared by
`GetColorFromPalette` and `generateGradientFromList`
(src/unnamed/part_002).  Each Go step is congruent to `31*h + c` modulo
2^64, so the running value is wrapped once per step. -/
def djb2abs (s : String) : Int :=
  let h := s.toList.foldl (fun h c => wrap64 (31 * h + (c.toNat : Int))) 0
  if h < 0 then wrap64 (-h) else h

/-! ## Color and palette kit (src/pkg/utils/color.go, src/unnamed/part_002)

Go `color.RGBA` is four bytes; float64 HSL arithmetic is modelled by exact
rationals (the determinism and control-flow claims do not depend on the
last-ulp values of the float computation).
-/

/-- Go `color.RGBA`. -/
structure RGBA where
  r : Nat
  g : Nat
  b : Nat
  a : Nat
deriving Repr, DecidableEq

/-- A text color as the renderer produces it: `color.White`, `color.Black`
or a caller-supplied RGBA value. -/
inductive TxtColor where
  | white
  | black
  | custom (c : RGBA)
deriving Repr, DecidableEq

/-- `ProColors` (src/pkg/utils/color.go): 67 curated colors. -/
def ProColors : List RGBA :=
  [⟨71, 85, 105, 255⟩, ⟨51, 65, 85, 255⟩, ⟨30, 41, 59, 255⟩,
   ⟨82, 82, 91, 255⟩, ⟨63, 63, 70, 255⟩, ⟨39, 39, 42, 255⟩,
   ⟨87, 83, 78, 255⟩, ⟨68, 64, 60, 255⟩, ⟨41, 37, 36, 255⟩,
   ⟨75, 85, 99, 255⟩, ⟨55, 65, 81, 255⟩, ⟨31, 41, 55, 255⟩,
   ⟨239, 68, 68, 255⟩, ⟨220, 38, 38, 255⟩, ⟨185, 28, 28, 255⟩,
   ⟨244, 63, 94, 255⟩, ⟨225, 29, 72, 255⟩, ⟨190, 18, 60, 255⟩,
   ⟨236, 72, 153, 255⟩, ⟨219, 39, 119, 255⟩, ⟨190, 24, 93, 255⟩,
   ⟨249, 115, 22, 255⟩, ⟨234, 88, 12, 255⟩, ⟨194, 65, 12, 255⟩,
   ⟨245, 158, 11, 255⟩, ⟨217, 119, 6, 255⟩, ⟨180, 83, 9, 255⟩,
   ⟨234, 179, 8, 255⟩, ⟨202, 138, 4, 255⟩, ⟨161, 98, 7, 255⟩,
   ⟨34, 197, 94, 255⟩, ⟨22, 163, 74, 255⟩, ⟨21, 128, 61, 255⟩,
   ⟨16, 185, 129, 255⟩, ⟨5, 150, 105, 255⟩, ⟨4, 120, 87, 255⟩,
   ⟨132, 204, 22, 255⟩, ⟨101, 163, 13, 255⟩, ⟨77, 124, 15, 255⟩,
   ⟨20, 184, 166, 255⟩, ⟨13, 148, 136, 255⟩, ⟨15, 118, 110, 255⟩,
   ⟨6, 182, 212, 255⟩, ⟨8, 145, 178, 255⟩, ⟨21, 94, 117, 255⟩,
   ⟨14, 165, 233, 255⟩, ⟨2, 132, 199, 255⟩, ⟨3, 105, 161, 255⟩,
   ⟨59, 130, 246, 255⟩, ⟨37, 99, 235, 255⟩, ⟨29, 78, 216, 255⟩,
   ⟨99, 102, 241, 255⟩, ⟨79, 70, 229, 255⟩, ⟨67, 56, 202, 255⟩,
   ⟨139, 92, 246, 255⟩, ⟨124, 58, 237, 255⟩, ⟨109, 40, 217, 255⟩,
   ⟨168, 85, 247, 255⟩, ⟨147, 51, 234, 255⟩, ⟨126, 34, 206, 255⟩,
   ⟨217, 70, 239, 255⟩, ⟨192, 38, 211, 255⟩, ⟨162, 28, 175, 255⟩,
   ⟨88, 101, 242, 255⟩, ⟨29, 161, 242, 255⟩, ⟨0, 0, 0, 255⟩, ⟨25, 25, 25, 255⟩]

/-- `GoogleColors` (src/pkg/utils/color.go): 20 brand colors. -/
def GoogleColors : List RGBA :=
  [⟨59, 130, 246, 255⟩, ⟨37, 99, 235, 255⟩, ⟨14, 165, 233, 255⟩, ⟨6, 182, 212, 255⟩,
   ⟨139, 92, 246, 255⟩, ⟨124, 58, 237, 255⟩, ⟨192, 38, 211, 255⟩, ⟨219, 39, 119, 255⟩,
   ⟨225, 29, 72, 255⟩, ⟨16, 185, 129, 255⟩, ⟨5, 150, 105, 255⟩, ⟨20, 184, 166, 255⟩,
   ⟨13, 148, 136, 255⟩, ⟨249, 115, 22, 255⟩, ⟨234, 88, 12, 255⟩, ⟨245, 158, 11, 255⟩,
   ⟨220, 38, 38, 255⟩, ⟨71, 85, 105, 255⟩, ⟨82, 82, 91, 255⟩, ⟨79, 70, 229, 255⟩]

/-- `ProGradients` (src/pkg/utils/color.go): 12 curated gradient pairs. -/
def ProGradients : List (RGBA × RGBA) :=
  [(⟨59, 130, 246, 255⟩, ⟨37, 99, 235, 255⟩), (⟨139, 92, 246, 255⟩, ⟨124, 58, 237, 255⟩),
   (⟨236, 72, 153, 255⟩, ⟨219, 39, 119, 255⟩), (⟨16, 185, 129, 255⟩, ⟨5, 150, 105, 255⟩),
   (⟨249, 115, 22, 255⟩, ⟨234, 88, 12, 255⟩), (⟨99, 102, 241, 255⟩, ⟨168, 85, 247, 255⟩),
   (⟨6, 182, 212, 255⟩, ⟨59, 130, 246, 255⟩), (⟨244, 63, 94, 255⟩, ⟨249, 115, 22, 255⟩),
   (⟨34, 197, 94, 255⟩, ⟨20, 184, 166, 255⟩), (⟨71, 85, 105, 255⟩, ⟨30, 41, 59, 255⟩),
   (⟨168, 85, 247, 255⟩, ⟨236, 72, 153, 255⟩), (⟨14, 165, 233, 255⟩, ⟨99, 102, 241, 255⟩)]

/-- `cssColors` (src/pkg/utils/color.go): the named-color table of
`ParseColor`. -/
def cssColors : List (String × RGBA) :=
  [("white", ⟨255, 255, 255, 255⟩), ("black", ⟨0, 0, 0, 255⟩), ("red", ⟨255, 0, 0, 255⟩),
   ("green", ⟨0, 128, 0, 255⟩), ("blue", ⟨0, 0, 255, 255⟩), ("cyan", ⟨0, 255, 255, 255⟩),
   ("magenta", ⟨255, 0, 255, 255⟩), ("yellow", ⟨255, 255, 0, 255⟩),
   ("orange", ⟨255, 165, 0, 255⟩), ("purple", ⟨128, 0, 128, 255⟩),
   ("pink", ⟨255, 192, 203, 255⟩), ("gray", ⟨128, 128, 128, 255⟩),
   ("grey", ⟨128, 128, 128, 255⟩), ("silver", ⟨192, 192, 192, 255⟩),
   ("gold", ⟨255, 215, 0, 255⟩), ("teal", ⟨0, 128, 128, 255⟩), ("lime", ⟨0, 255, 0, 255⟩),
   ("navy", ⟨0, 0, 128, 255⟩)]

/-- Index selection `list[hash % len(list)]` shared by the palette pickers.
Go `%` on int is truncated modulo (`Int.tmod`); after the absolute value in
`djb2abs` the index is non-negative for every reachable hash. -/
def pickByHash (list : List RGBA) (name : String) : RGBA :=
  list.getD (Int.toNat (Int.tmod (djb2abs name) (list.length : Int))) ⟨0, 0, 0, 255⟩

/-- `utils.GetColorFromPalette` (src/unnamed/part_002): google/brand pick
from GoogleColors, everything else (pro, curated, default) from ProColors. -/
def GetColorFromPalette (name palette : String) : RGBA :=
  let targetList :=
    if lowerStr palette = "google" ∨ lowerStr palette = "brand" then GoogleColors
    else ProColors
  pickByHash targetList name

/-- External deterministic primitives the generator consumes.  `md5` stands
for Go `crypto/md5.Sum` (16 bytes); it is a fixed pure function of its
input, which is all the claims below rely on. -/
structure Env where
  md5 : String → List Nat

/-- `generateGradientRetro` (src/unnamed/part_002): first six MD5 bytes as
two colors. -/
def generateGradientRetro (env : Env) (name : String) : RGBA × RGBA :=
  let h := env.md5 name
  (⟨h.getD 0 0, h.getD 1 0, h.getD 2 0, 255⟩, ⟨h.getD 3 0, h.getD 4 0, h.getD 5 0, 255⟩)

/-- `hueToRgb` (src/pkg/utils/color.go) over exact rationals. -/
def hueToRgb (p q t : ℚ) : ℚ :=
  let t := if t < 0 then t + 1 else t
  let t := if t > 1 then t - 1 else t
  if t < 1 / 6 then p + (q - p) * 6 * t
  else if t < 1 / 2 then q
  else if t < 2 / 3 then p + (q - p) * (2 / 3 - t) * 6
  else p

/-- Truncating conversion `uint8(x * 255)` for in-range values. -/
def q255 (x : ℚ) : Nat := Int.toNat ⌊x * 255⌋

/-- `hslToRgb` (src/pkg/utils/color.go) over exact rationals. -/
def hslToRgb (h s l : ℚ) : Nat × Nat × Nat :=
  if s = 0 then (q255 l, q255 l, q255 l)
  else
    let q := if l < 1 / 2 then l * (1 + s) else l + s - l * s
    let p := 2 * l - q
    (q255 (hueToRgb p q (h / 360 + 1 / 3)), q255 (hueToRgb p q (h / 360)),
      q255 (hueToRgb p q (h / 360 - 1 / 3)))

/-- `rgbToHsl` (src/pkg/utils/color.go) over exact rationals. -/
def rgbToHsl (r g b : Nat) : ℚ × ℚ × ℚ :=
  let rf : ℚ := (r : ℚ) / 255
  let gf : ℚ := (g : ℚ) / 255
  let bf : ℚ := (b : ℚ) / 255
  let maxv := max rf (max gf bf)
  let minv := min rf (min gf bf)
  let l := (maxv + minv) / 2
  if maxv = minv then (0, 0, l)
  else
    let d := maxv - minv
    let s := if l > 1 / 2 then d / (2 - maxv - minv) else d / (maxv + minv)
    let h :=
      if maxv = rf then (if gf < bf then (gf - bf) / d + 6 else (gf - bf) / d)
      else if maxv = gf then (bf - rf) / d + 2
      else (rf - gf) / d + 4
    (h * 60, s, l)

/-- `generateGradientProcedural` (src/unnamed/part_002): HSL colors driven
by MD5 bytes. -/
def generateGradientProcedural (env : Env) (name : String) : RGBA × RGBA :=
  let hs := env.md5 name
  let h1 : ℚ := (hs.getD 0 0 : ℚ) * (360 / 255)
  let s1 : ℚ := 65 / 100 + ((hs.getD 1 0 % 35 : Nat) : ℚ) / 100
  let l1 : ℚ := 45 / 100 + ((hs.getD 2 0 % 20 : Nat) : ℚ) / 100
  let hueShift : ℚ := 30 + ((hs.getD 3 0 % 60 : Nat) : ℚ)
  let h2 := h1 + hueShift
  let h2 := if h2 > 360 then h2 - 360 else h2
  let s2 : ℚ := 65 / 100 + ((hs.getD 4 0 % 35 : Nat) : ℚ) / 100
  let l2 : ℚ := 45 / 100 + ((hs.getD 5 0 % 20 : Nat) : ℚ) / 100
  match hslToRgb h1 s1 l1, hslToRgb h2 s2 l2 with
  | (r1, g1, b1), (r2, g2, b2) => (⟨r1, g1, b1, 255⟩, ⟨r2, g2, b2, 255⟩)

/-- `generateGradientFromList` (src/unnamed/part_002): pick from
ProGradients by the seed hash. -/
def generateGradientFromList (name : String) : RGBA × RGBA :=
  ProGradients.getD (Int.toNat (Int.tmod (djb2abs name) (ProGradients.length : Int)))
    (⟨0, 0, 0, 255⟩, ⟨0, 0, 0, 255⟩)

/-- `utils.GenerateGradient` (src/unnamed/part_002): dispatch on the
palette name; vivid, auto, the empty string and every unknown palette use
the procedural generator. -/
def GenerateGradient (env : Env) (name palette : String) : RGBA × RGBA :=
  let p := lowerStr palette
  if p = "pro" ∨ p = "curated" then generateGradientFromList name
  else if p = "retro" ∨ p = "raw" then generateGradientRetro env name
  else generateGradientProcedural env name

/-- `utils.MakeSoft` (src/pkg/utils/color.go): keep the hue, lighten the
background, darken the text.  Returns (background, text). -/
def MakeSoft (seed : RGBA) : RGBA × RGBA :=
  match rgbToHsl seed.r seed.g seed.b with
  | (h, s, _) =>
    match hslToRgb h (min s (6 / 10)) (95 / 100), hslToRgb h (min (s + 2 / 10) 1) (2 / 10) with
    | (br, bg, bb), (tr, tg, tb) => (⟨br, bg, bb, 255⟩, ⟨tr, tg, tb, 255⟩)

/-- `utils.SoftDarken` (src/pkg/utils/color.go). -/
def SoftDarken (c : RGBA) (factor : ℚ) : RGBA :=
  match rgbToHsl c.r c.g c.b with
  | (h, s, l) =>
    match hslToRgb h s (max 0 (l - factor)) with
    | (r, g, b) => ⟨r, g, b, 255⟩

/-- `utils.Luminance` (src/pkg/utils/color.go): relative luminance. -/
def Luminance (c : RGBA) : ℚ :=
  2126 / 10000 * ((c.r : ℚ) / 255) + 7152 / 10000 * ((c.g : ℚ) / 255) +
    722 / 10000 * ((c.b : ℚ) / 255)

/-- `utils.DominantFromGradient` (src/pkg/utils/color.go). -/
def DominantFromGradient (c1 c2 : RGBA) : RGBA :=
  ⟨(c1.r + c2.r) / 2, (c1.g + c2.g) / 2, (c1.b + c2.b) / 2, 255⟩

/-- One hex digit. -/
def hexDigit? (c : Char) : Option Nat :=
  if '0' ≤ c ∧ c ≤ '9' then some (c.toNat - 48)
  else if 'a' ≤ c ∧ c ≤ 'f' then some (c.toNat - 87)
  else if 'A' ≤ c ∧ c ≤ 'F' then some (c.toNat - 55)
  else none

/-- One hex byte (two digits). -/
def hexPair? (c1 c2 : Char) : Option Nat :=
  (hexDigit? c1).bind (fun h1 => (hexDigit? c2).map (fun h2 => 16 * h1 + h2))

/-- `utils.ParseColor` (src/pkg/utils/color.go): trim, named-color table
(lowercased), then 6- or 3-digit hex with an optional leading hash mark. -/
def ParseColor (s : String) : Option RGBA :=
  let s := trimSpaces s
  if s = "" then none
  else
    match (cssColors.find? (fun p => p.1 == lowerStr s)).map (fun p => p.2) with
    | some c => some c
    | none =>
      let hexChars :=
        match s.toList with
        | '#' :: rest => rest
        | l => l
      match hexChars with
      | [a, b, c, d, e, f] =>
        (hexPair? a b).bind (fun r =>
          (hexPair? c d).bind (fun g =>
            (hexPair? e f).map (fun bl => (⟨r, g, bl, 255⟩ : RGBA))))
      | [a, b, c] =>
        (hexPair? a a).bind (fun r =>
          (hexPair? b b).bind (fun g =>
            (hexPair? c c).map (fun bl => (⟨r, g, bl, 255⟩ : RGBA))))
      | _ => none

/-- `utils.DetermineTextColorAdvanced` (src/unnamed/part_002): a non-empty
override names white or black or parses as a color; otherwise white or
black by the luminance of the dominant background. -/
def DetermineTextColorAdvanced (c1 c2 : RGBA) (aType input : String) : TxtColor :=
  let viaLum :=
    let base := if aType = "gradient" then DominantFromGradient c1 c2 else c1
    if Luminance base > 6 / 10 then TxtColor.black else TxtColor.white
  if input ≠ "" then
    if lowerStr input = "white" then TxtColor.white
    else if lowerStr input = "black" then TxtColor.black
    else
      match ParseColor input with
      | some c => TxtColor.custom c
      | none => viaLum
  else viaLum

/-! ## Avatar renderer (src/unnamed/part_001, styles.GenerateImageBytes) -/

/-- `strconv.Atoi`: optional sign followed by at least one digit. -/
def digitsVal? : List Char → Nat → Option Nat
  | [], acc => some acc
  | c :: rest, acc =>
    if '0' ≤ c ∧ c ≤ '9' then digitsVal? rest (acc * 10 + (c.toNat - 48)) else none

/-- `strconv.Atoi` over the strings the service passes it (the int64
overflow error of huge literals is not modelled). -/
def atoi (s : String) : Option Int :=
  match s.toList with
  | [] => none
  | '+' :: rest => if rest.isEmpty then none else (digitsVal? rest 0).map (fun n => (n : Int))
  | '-' :: rest => if rest.isEmpty then none else (digitsVal? rest 0).map (fun n => -(n : Int))
  | l => (digitsVal? l 0).map (fun n => (n : Int))

/-- Request query values: `url.Values` restricted to the first value per
key, which is all `Get` exposes. -/
abbrev Query := List (String × String)

/-- `url.Values.Get`: first value for the key, or the empty string. -/
def getQ (q : Query) (k : String) : String :=
  ((q.find? (fun p => p.1 == k)).map (fun p => p.2)).getD ""

/-- The size-resolution fragment of `GenerateImageBytes`
(src/unnamed/part_001 lines 125-142).  Faithful to the source control flow:
when `size` is absent the source copies `w` into `sVal` inside the then
branch and then does nothing with it — the assignment is dead, so `w`
never affects the result; when `size` is present it is parsed and clamped
into [16, 1024] (parse failures keep the default). -/
def resolveSize (cfgDefaultSize : Int) (q : Query) : Int :=
  let size := if cfgDefaultSize = 0 then 360 else cfgDefaultSize
  let sVal := getQ q "size"
  if sVal = "" then
    let _wVal := getQ q "w"
    size
  else
    match atoi sVal with
    | some s => if s > 1024 then 1024 else if s < 16 then 16 else s
    | none => size

/-- Size resolution as the amended claim C7 states it: only `size` is
consulted; a parseable integer is clamped into [16, 1024] (so -1 yields
16); otherwise the configured default (360 when the configuration is
unset) applies; `w` is ignored. -/
def resolveSizeSpec (cfgDefaultSize : Int) (q : Query) : Int :=
  let dflt := if cfgDefaultSize = 0 then 360 else cfgDefaultSize
  match atoi (getQ q "size") with
  | some s => min 1024 (max 16 s)
  | none => dflt

/-- Ambient runtime state a Go function could observe (monotonic clock,
randomness source).  Handlers thread it explicitly; the renderer receives
it and — mirroring the absence of any `time.Now` or `rand` call in
`GenerateImageBytes` — never reads it. -/
structure World where
  now : Int
  randSeed : Nat

/-- Everything that determines the rendered image: the raster and SVG
encodings produced by the source are deterministic byte-level functions of
this record (pixel loop, font rendering and `png.Encode` consume only
these fields), so outputs are compared at this level. -/
structure Scene where
  format : String
  style : String
  size : Int
  bg1 : RGBA
  bg2 : RGBA
  initials : String
  txtColor : TxtColor
  radius : ℚ
deriving Repr, DecidableEq

/-- `styles.GenerateImageBytes` (src/unnamed/part_001): option parsing,
palette and color selection, and the scene handed to the PNG or SVG
encoder, together with the MIME type returned. -/
def GenerateImageBytes (w : World) (env : Env) (cfgDefaultSize : Int)
    (name : String) (query : Query) : Scene × String :=
  let f := getQ query "format"
  let format :=
    if f = "svg" ∨ f = "png" then f
    else if getQ query "type" = "svg" then "svg" else "png"
  let theme := getQ query "theme"
  let styleRaw :=
    if theme ≠ "" then
      let parts := splitStr '/' theme
      parts.getD 0 "color"
    else if getQ query "aType" ≠ "" then getQ query "aType"
    else "color"
  let palette :=
    if theme ≠ "" then
      let parts := splitStr '/' theme
      if 1 < parts.length then parts.getD 1 "auto" else "auto"
    else "auto"
  let style := if styleRaw ≠ "gradient" ∧ styleRaw ≠ "soft" then "color" else styleRaw
  let initialsQ := getQ query "initials"
  let initials :=
    if initialsQ = "" ∨ initialsQ = "auto" then
      let target := if getQ query "iName" ≠ "" then getQ query "iName" else name
      GetInitials target
    else initialsQ
  let size := resolveSize cfgDefaultSize query
  let colors :=
    if style = "soft" then
      let seed :=
        if palette = "auto" then (GenerateGradient env name "auto").1
        else GetColorFromPalette name palette
      let pair := MakeSoft seed
      (pair.1, SoftDarken pair.1 (5 / 100), TxtColor.custom pair.2)
    else if style = "gradient" then
      let g := GenerateGradient env name palette
      (g.1, g.2, DetermineTextColorAdvanced g.1 g.2 "gradient" "")
    else
      let c := GetColorFromPalette name palette
      (c, c, DetermineTextColorAdvanced c c "color" "")
  let bgOv := getQ query "bg"
  let withBg :=
    if bgOv ≠ "" then
      match ParseColor bgOv with
      | some c => (c, c, colors.2.2, true)
      | none => (colors.1, colors.2.1, colors.2.2, false)
    else (colors.1, colors.2.1, colors.2.2, false)
  let bg1 := withBg.1
  let bg2 := withBg.2.1
  let userHasBg := withBg.2.2.2
  let txtOv := getQ query "color"
  let txtColor :=
    if txtOv ≠ "" then DetermineTextColorAdvanced bg1 bg2 style txtOv
    else if userHasBg then DetermineTextColorAdvanced bg1 bg2 "custom" ""
    else withBg.2.2.1
  let rVal := getQ query "rounded"
  let radius : ℚ :=
    if rVal = "true" then (size : ℚ) / 16
    else if rVal ≠ "" then
      match atoi rVal with
      | some v =>
        let v := if v > 50 then 50 else v
        ((size : ℚ) / 2) * ((v : ℚ) / 100) * 2
      | none => 0
    else 0
  let scene : Scene := ⟨format, style, size, bg1, bg2, initials, txtColor, radius⟩
  if format = "svg" then (scene, "image/svg+xml") else (scene, "image/png")

/-- Dummy external-primitive bundle used by concrete evaluations whose
control paths never consult MD5 (solid-color style with the default
palette): the placeholder maps every string to sixteen zero bytes. -/
def envW : Env := ⟨fun _ => List.replicate 16 0⟩

/-! ## Data model (src/internal/database/model.go) -/

/-- Go struct `Image` — the stored Asset. -/
structure Image where
  id : String
  data : List Nat
  width : Int
  height : Int
  format : String
  size : Int
  updatedAt : Int
  createdAt : Int
deriving Repr, DecidableEq

/-- Go struct `KeyMapping` — the Alias binding a key to one asset. -/
structure KeyMapping where
  key : String
  imageId : String
  createdAt : Int
deriving Repr, DecidableEq

/-- The persisted store: both tables.  Rows are multisets; list order
carries no meaning. -/
structure DBState where
  images : List Image
  mappings : List KeyMapping
deriving Repr, DecidableEq

/-- `SELECT ... FROM key_mappings WHERE key = ? LIMIT 1` (gorm `First`). -/
def lookupMapping (db : DBState) (key : String) : Option KeyMapping :=
  db.mappings.find? (fun m => m.key == key)

/-- `SELECT ... FROM images WHERE id = ? LIMIT 1` (gorm `First`). -/
def findImage (db : DBState) (id : String) : Option Image :=
  db.images.find? (fun i => i.id == id)

/-- The running totals of package appinfo (src/unnamed/part_004):
`TotalAssetsCount` and `TotalAssetsSize`, adjusted only through `AddAsset`
and `RemoveAsset`. -/
structure Stats where
  count : Int
  size : Int
deriving Repr, DecidableEq

/-- `appinfo.AddAsset`. -/
def AddAsset (st : Stats) (size : Int) : Stats := ⟨st.count + 1, st.size + size⟩

/-- `appinfo.RemoveAsset`. -/
def RemoveAsset (st : Stats) (size : Int) : Stats := ⟨st.count - 1, st.size - size⟩

/-- Aliases whose asset id matches no stored image. -/
def danglingMappings (db : DBState) : List KeyMapping :=
  db.mappings.filter (fun m => !(db.images.any (fun i => i.id == m.imageId)))

/-- The store read behind `GET /u/{key}`: alias to asset id to bytes. -/
def dbServe (db : DBState) (key : String) : Option (List Nat) :=
  (lookupMapping db key).bind (fun m => (findImage db m.imageId).map (fun i => i.data))

/-! ## Upload pipeline (src/internal/handlers/avatar.go, UploadHandler) -/

/-- `ImageMeta` (src/internal/handlers/avatar.go). -/
structure ImageMeta where
  width : Int
  height : Int
  format : String
  size : Int
deriving Repr, DecidableEq

/-- The JSON-visible outcome of an upload transaction. -/
structure UploadResult where
  db : DBState
  stats : Stats
  action : String
  avatarId : String
  assignedKeys : List String
deriving Repr, DecidableEq

/-- The secondary-keys pass of `UploadHandler` (lines 462-475): an alias
that exists and maps to this asset is kept and reported; an alias that
exists and maps elsewhere is left untouched and omitted from the reported
keys; a missing alias is created and reported. -/
def secondaryPass (target : String) (now : Int) : List String → DBState → DBState × List String
  | [], db => (db, [])
  | k :: rest, db =>
    match lookupMapping db k with
    | some cm =>
      let res := secondaryPass target now rest db
      if cm.imageId = target then (res.1, k :: res.2) else (res.1, res.2)
    | none =>
      let db' := { db with mappings := db.mappings ++ [⟨k, target, now⟩] }
      let res := secondaryPass target now rest db'
      (res.1, k :: res.2)

/-- The asset id an upload binds its keys to: the asset of an existing
primary alias, else the freshly generated id. -/
def uploadTarget (db : DBState) (primaryKey newId : String) : String :=
  match lookupMapping db primaryKey with
  | some m => m.imageId
  | none => newId

/-- The in-place row change of the UPDATE branch (gorm `Updates` keyed on
the target id): bytes, dimensions, format, size and `updated_at` change,
id and `created_at` stay. -/
def updImage (data : List Nat) (meta : ImageMeta) (now : Int) (target : String)
    (i : Image) : Image :=
  if i.id = target then
    { i with data := data, width := meta.width, height := meta.height,
             format := meta.format, size := meta.size, updatedAt := now }
  else i

/-- The transactional core of `UploadHandler` (lines 411-494) together
with the post-commit stats update `updateStatsAndCache`, for a non-empty
key list: upsert keyed on the first (primary) key, then the secondary-keys
pass, then the stats delta.  `newId` stands for the fresh `uuid.New()`
value. -/
def uploadTxCore (db : DBState) (st : Stats) (primaryKey : String) (secondary : List String)
    (data : List Nat) (meta : ImageMeta) (newId : String) (now : Int) : UploadResult :=
  match lookupMapping db primaryKey with
  | some existing =>
    let targetAssetID := existing.imageId
    let oldSize := ((findImage db targetAssetID).map (fun i => i.size)).getD 0
    let db1 : DBState := { db with images := db.images.map (updImage data meta now targetAssetID) }
    let res := secondaryPass targetAssetID now secondary db1
    { db := res.1, stats := AddAsset (RemoveAsset st oldSize) meta.size,
      action := "updated", avatarId := targetAssetID,
      assignedKeys := primaryKey :: res.2 }
  | none =>
    let newImage : Image :=
      ⟨newId, data, meta.width, meta.height, meta.format, meta.size, now, now⟩
    let db1 : DBState := { db with
                             images := db.images ++ [newImage],
                             mappings := db.mappings ++ [⟨primaryKey, newId, now⟩] }
    let res := secondaryPass newId now secondary db1
    { db := res.1, stats := AddAsset st meta.size,
      action := "created", avatarId := newId,
      assignedKeys := primaryKey :: res.2 }

/-- `UploadHandler` transaction over the parsed key list (the handler has
already rejected an empty list, modelled as `none`). -/
def uploadTx (db : DBState) (st : Stats) (validKeys : List String) (data : List Nat)
    (meta : ImageMeta) (newId : String) (now : Int) : Option UploadResult :=
  match validKeys with
  | [] => none
  | primaryKey :: secondary =>
    some (uploadTxCore db st primaryKey secondary data meta newId now)

/-! ## Delete paths -/

/-- `DeleteAPIHandler` (src/internal/handlers/avatar.go lines 497-548)
past the auth gate, with the asset id already resolved (a `key` request
first resolves the alias): delete the image row, delete its mappings, drop
the `img:` cache entry.  The appinfo totals are returned untouched — the
handler contains no `appinfo.RemoveAsset` call. -/
def apiDeleteById (db : DBState) (st : Stats) (assetID : String) : DBState × Stats :=
  ({ images := db.images.filter (fun i => !(i.id == assetID)),
     mappings := db.mappings.filter (fun m => !(m.imageId == assetID)) }, st)

/-- `CoreDeleteAsset` (src/internal/handlers/core.go): fetch the size,
delete mappings then the image inside one transaction; when no image row
is deleted the transaction rolls back with no change; on success
`appinfo.RemoveAsset` subtracts the size. -/
def CoreDeleteAsset (db : DBState) (st : Stats) (assetID : String) : DBState × Stats :=
  match findImage db assetID with
  | none => (db, st)
  | some img =>
    ({ images := db.images.filter (fun i => !(i.id == assetID)),
       mappings := db.mappings.filter (fun m => !(m.imageId == assetID)) },
     RemoveAsset st img.size)

/-! ## Maintenance worker (src/internal/database/cleaner.go) -/

/-- Ordering by `updated_at`, the prune fetch order
(`Order("updated_at ASC")`; ties are unspecified in SQLite, fixed here by
one admissible linearization no theorem depends on). -/
def updLe (a b : Image) : Prop := a.updatedAt ≤ b.updatedAt

instance : DecidableRel updLe := fun a b => Int.decLe a.updatedAt b.updatedAt

instance : IsTotal Image updLe := ⟨fun a b => Int.le_total a.updatedAt b.updatedAt⟩

instance : IsTrans Image updLe := ⟨fun _ _ _ hab hbc => le_trans hab hbc⟩

/-- The images listed oldest-first. -/
def sortByUpdated (l : List Image) : List Image := List.insertionSort updLe l

/-- Logical size: `SELECT IFNULL(SUM(size), 0) FROM images`. -/
def sumImgSizes (l : List Image) : Int := (l.map (fun i => i.size)).sum

/-- `DELETE FROM images WHERE id IN ids`.  Mappings are NOT touched here:
the `OnDelete:CASCADE` constraint declared on the model is never enforced
at runtime (the SQLite DSN in db.go sets journal mode, busy timeout,
synchronous level and cache size but never turns foreign-key enforcement
on), and unlike both handler delete paths the cleaner issues no mapping
delete of its own. -/
def deleteImagesById (ids : List String) (l : List Image) : List Image :=
  l.filter (fun i => !(decide (i.id ∈ ids)))

/-- The batch loop of `checkAndPrune` (cleaner.go lines 149-180): while
fewer bytes than requested have been freed and the 1000-iteration guard
holds, fetch the 50 oldest images, count their sizes as freed and delete
them; stop early when the fetch comes back empty.  (The 50 ms sleep
between batches is real-time behavior outside this model.)  Returns the
surviving images, the freed bytes and the number of iterations run. -/
def pruneLoopDB (toRemove : Int) : Nat → Int → List Image → List Image × Int × Nat
  | 0, freed, imgs => (imgs, freed, 0)
  | fuel + 1, freed, imgs =>
    if toRemove ≤ freed then (imgs, freed, 0)
    else
      let batch := (sortByUpdated imgs).take 50
      if batch.isEmpty then (imgs, freed, 0)
      else
        let imgs' := deleteImagesById (batch.map (fun i => i.id)) imgs
        let res := pruneLoopDB toRemove fuel (freed + sumImgSizes batch) imgs'
        (res.1, res.2.1, res.2.2 + 1)

/-- What one maintenance tick did. -/
inductive CleanerAction where
  | idle
  | vacuum
  | pruned (iterations : Nat)
deriving Repr, DecidableEq

/-- Outcome of one maintenance tick. -/
structure CleanResult where
  db : DBState
  stats : Stats
  action : CleanerAction
deriving Repr, DecidableEq

/-- Prune target `int64(float64(limit) * 0.85)`, modelled as the exact
floor of 17·limit/20. -/
def cleanerTarget (limit : Int) : Int := Int.tdiv (17 * limit) 20

/-- `checkAndPrune` (src/internal/database/cleaner.go lines 67-186).
`physical` is the on-disk size of the store plus its journal (an `os.Stat`
input).  Below the limit nothing happens; when more than half the file is
empty (`float64(empty) > float64(physical)*0.50`, exactly
`2*empty > physical`) the worker checkpoints and VACUUMs without touching
rows; otherwise it prunes oldest-first in batches of 50.  The appinfo
totals are never adjusted, and the mappings of pruned images survive (see
`deleteImagesById`). -/
def checkAndPrune (limit physical : Int) (db : DBState) (st : Stats) : CleanResult :=
  if physical < limit then ⟨db, st, .idle⟩
  else
    let logicalSize := sumImgSizes db.images
    let emptySpace := physical - logicalSize
    if physical < 2 * emptySpace then ⟨db, st, .vacuum⟩
    else
      let toRemove := logicalSize - cleanerTarget limit
      if toRemove ≤ 0 then ⟨db, st, .idle⟩
      else
        let res := pruneLoopDB toRemove 1000 0 db.images
        ⟨⟨res.1, db.mappings⟩, st, .pruned res.2.2⟩

/-- What the amended claim C9 states about one maintenance tick: mode
selection (idle below the limit, vacuum exactly when over half the file is
empty, prune otherwise when the logical size exceeds the 0.85·limit
target), and for the prune mode: the totals are left unchanged, mappings
survive, only stored images are kept, every deleted image is no newer than
every survivor, and the loop stops only once the requested bytes are
freed, the table is empty, or the 1000-iteration guard fires. -/
def CleanerTickSpec (limit physical : Int) (db : DBState) (st : Stats)
    (r : CleanResult) : Prop :=
  (physical < limit → r = ⟨db, st, .idle⟩) ∧
  (limit ≤ physical → physical < 2 * (physical - sumImgSizes db.images) →
    r = ⟨db, st, .vacuum⟩) ∧
  (limit ≤ physical → 2 * (physical - sumImgSizes db.images) ≤ physical →
    sumImgSizes db.images - cleanerTarget limit ≤ 0 → r = ⟨db, st, .idle⟩) ∧
  (limit ≤ physical → 2 * (physical - sumImgSizes db.images) ≤ physical →
    0 < sumImgSizes db.images - cleanerTarget limit →
    r.stats = st ∧
    r.db.mappings = db.mappings ∧
    (∀ s ∈ r.db.images, s ∈ db.images) ∧
    (∀ d ∈ db.images, d ∉ r.db.images → ∀ s ∈ r.db.images, d.updatedAt ≤ s.updatedAt) ∧
    (sumImgSizes db.images - cleanerTarget limit ≤
        sumImgSizes db.images - sumImgSizes r.db.images ∨
      r.db.images = [] ∨ r.action = CleanerAction.pruned 1000))

/-! ## Read pipeline (src/internal/handlers/avatar.go) -/

/-- Byte-lexicographic string order of `sort.Strings`. -/
def lexLe : List Char → List Char → Bool
  | [], _ => true
  | _ :: _, [] => false
  | c :: cs, d :: ds =>
    if c.toNat < d.toNat then true
    else if d.toNat < c.toNat then false
    else lexLe cs ds

/-- `fmtKey` (avatar.go lines 29-48): "pre:key?k1=v1&k2=v2&" over the
sorted distinct query keys. -/
def fmtKey (pre key : String) (q : Query) : String :=
  let keys := (q.map (fun p => p.1)).dedup
  let sorted := List.insertionSort (fun a b => lexLe a.toList b.toList = true) keys
  sorted.foldl (fun acc k => acc ++ k ++ "=" ++ getQ q k ++ "&") (pre ++ ":" ++ key ++ "?")

/-- `buildCacheKey` (avatar.go lines 20-27): the cache key and whether the
response may be cached (custom colors are not). -/
def buildCacheKey (pre key : String) (q : Query) : String × Bool :=
  if getQ q "bg" ≠ "" ∨ getQ q "color" ≠ "" then (fmtKey pre key q, false)
  else (fmtKey pre key q, true)

/-- `[]byte(s)` for the ASCII ids the service stores in the cache. -/
def strToBytes (s : String) : List Nat := s.toList.map Char.toNat

/-- `string(b)` for ASCII byte lists. -/
def bytesToStr (b : List Nat) : String := ⟨b.map Char.ofNat⟩

/-- A response body as handed to `serveWithETag`: raw stored bytes, a
generated image (identified by its scene), or the nil slice that the
failed coalesced fetch leaves in `data` when the handler still reaches the
final write. -/
inductive Payload where
  | bytes (b : List Nat)
  | gen (scene : Scene)
  | nil
deriving Repr, DecidableEq

/-- Observable handler responses. -/
inductive HEvent where
  | errResp (status : Nat) (code : String)
  | serveETag (body : Payload) (mime : String)
deriving Repr, DecidableEq

/-- `serveGeneratorFallback` (avatar.go lines 178-211): build the cache
key, look it up when cacheable, otherwise generate and serve.  Note the
seed handed to the generator: the source passes `uniqueKey` — the internal
cache key `"gen:" + key + "?" + sortedQuery` — where the specification
demands the request key itself.  (The cache insertions the source performs
do not change the emitted response and are not tracked here; the generator
error branch is unreachable in the model since the scene construction is
total.) -/
def serveGeneratorFallbackM (w : World) (env : Env) (cfg : Int) (cache : MemoryCache)
    (key : String) (q : Query) : List HEvent :=
  let ck := buildCacheKey "gen" key q
  let uniqueKey := ck.1
  let body :=
    if ck.2 then
      match cache.get w.now uniqueKey with
      | some cached => Payload.bytes cached
      | none => Payload.gen (GenerateImageBytes w env cfg uniqueKey q).1
    else Payload.gen (GenerateImageBytes w env cfg uniqueKey q).1
  let mime := if getQ q "format" = "svg" then "image/svg+xml" else "image/png"
  [HEvent.serveETag body mime]

/-- `ServeUserAvatar` (avatar.go lines 120-176): alias lookup through the
cache then the store (falling back to the generator on a store miss, with
a return), then the coalesced asset fetch.  When that fetch errors the
source calls the fallback but does NOT return, so it still reaches the
final `serveWithETag(w, r, data.([]byte), "image/png")` with a nil `data`
— recorded here as a trailing `Payload.nil` serve. -/
def serveUserAvatarM (w : World) (env : Env) (cfg : Int) (cache : MemoryCache)
    (db : DBState) (key : String) (q : Query) : List HEvent :=
  if key = "" then [HEvent.errResp 400 "request/missing_key"]
  else
    let fetchTarget :=
      match cache.get w.now ("map:" ++ key) with
      | some cachedId => some (bytesToStr cachedId)
      | none =>
        match lookupMapping db key with
        | none => none
        | some m => some m.imageId
    match fetchTarget with
    | none => serveGeneratorFallbackM w env cfg cache key q
    | some targetId =>
      let fetched :=
        match cache.get w.now ("img:" ++ targetId) with
        | some cached => some cached
        | none =>
          match lookupMapping db key with
          | none => none
          | some m =>
            match findImage db m.imageId with
            | none => none
            | some img => some img.data
      match fetched with
      | some d => [HEvent.serveETag (Payload.bytes d) "image/png"]
      | none =>
        serveGeneratorFallbackM w env cfg cache key q ++
          [HEvent.serveETag Payload.nil "image/png"]

/-! Concrete fixtures for the handler and store claims. -/

/-- An enabled, empty cache with the default 100 MiB capacity and 30 min
ttl (in seconds). -/
def emptyCacheW : MemoryCache := ⟨true, [], 0, 104857600, 1800⟩

/-- The empty store. -/
def emptyDBW : DBState := ⟨[], []⟩

/-- Cache state for C10: the alias id for key "k" is cached while the
store no longer holds the mapping (reachable: the alias was deleted after
the map entry was cached). -/
def cacheW10 : MemoryCache :=
  ⟨true, [("map:k", ⟨strToBytes "A1", 100, 2⟩)], 2, 104857600, 1800⟩

/-- C2 fixture: one stored asset of size 100, aliased by "x", totals in
sync. -/
def dbW2 : DBState := ⟨[⟨"a", [1], 1, 1, "jpeg", 100, 0, 0⟩], [⟨"x", "a", 0⟩]⟩

/-- C3 fixture: one stored asset of size 2000 aliased by "x". -/
def dbW3 : DBState := ⟨[⟨"a", [1], 1, 1, "jpeg", 2000, 0, 0⟩], [⟨"x", "a", 0⟩]⟩

/-- C8 fixture metadata. -/
def metaW : ImageMeta := ⟨1, 1, "jpeg", 1⟩

/-- C8 fixture: the store after upload #1 with keys=x (asset A1, bytes
[1]). -/
def dbW8 : DBState := ⟨[⟨"A1", [1], 1, 1, "jpeg", 1, 0, 0⟩], [⟨"x", "A1", 0⟩]⟩

/-- C9 counterexample fixture: one old asset of size 3000 aliased by "y",
totals in sync. -/
def dbW9 : DBState := ⟨[⟨"old", [1], 1, 1, "jpeg", 3000, 5, 5⟩], [⟨"y", "old", 0⟩]⟩

/-- C9 witness fixture: two assets of size 600 with distinct ages. -/
def dbW9c : DBState :=
  ⟨[⟨"i1", [1], 1, 1, "jpeg", 600, 1, 1⟩, ⟨"i2", [2], 1, 1, "jpeg", 600, 2, 2⟩], []⟩

/-! Cache lemmas. -/

theorem sumSizes_cons (p : String × Item) (l : List (String × Item)) :
    sumSizes (p :: l) = p.2.size + sumSizes l := by
  simp [sumSizes]

theorem sumSizes_perm {l1 l2 : List (String × Item)} (h : l1.Perm l2) :
    sumSizes l1 = sumSizes l2 :=
  List.Perm.sum_eq (h.map (fun p => p.2.size))

theorem sortByExpiry_perm (l : List (String × Item)) : (sortByExpiry l).Perm l :=
  List.perm_insertionSort expLe l

theorem mapGet_none_iff {l : List (String × Item)} {k : String} :
    mapGet l k = none ↔ ∀ p ∈ l, p.1 ≠ k := by
  simp [mapGet, List.find?_eq_none]

theorem mapGet_cons_self {p : String × Item} {rest : List (String × Item)} {k : String}
    (h : p.1 = k) : mapGet (p :: rest) k = some p.2 := by
  simp [mapGet, List.find?_cons, h]

theorem mapGet_cons_ne {p : String × Item} {rest : List (String × Item)} {k : String}
    (h : ¬ p.1 = k) : mapGet (p :: rest) k = mapGet rest k := by
  simp [mapGet, List.find?_cons, h]

theorem eraseKey_sublist (l : List (String × Item)) (k : String) :
    (eraseKey l k).Sublist l :=
  List.filter_sublist l

theorem eraseKey_of_none {l : List (String × Item)} {k : String}
    (h : mapGet l k = none) : eraseKey l k = l := by
  have hall := mapGet_none_iff.mp h
  apply List.filter_eq_self.mpr
  intro p hp
  simpa using hall p hp

theorem eraseKey_cons_self {p : String × Item} {rest : List (String × Item)} {k : String}
    (h : p.1 = k) : eraseKey (p :: rest) k = eraseKey rest k := by
  simp [eraseKey, List.filter_cons, h]

theorem eraseKey_cons_ne {p : String × Item} {rest : List (String × Item)} {k : String}
    (h : ¬ p.1 = k) : eraseKey (p :: rest) k = p :: eraseKey rest k := by
  simp [eraseKey, List.filter_cons, h]

theorem key_not_mem_eraseKey (l : List (String × Item)) (k : String) :
    k ∉ (eraseKey l k).map (fun p => p.1) := by
  intro hmem
  rcases List.mem_map.mp hmem with ⟨p, hp, hk⟩
  rcases List.mem_filter.mp hp with ⟨_, hne⟩
  exact (bne_iff_ne.mp hne) hk

theorem sumSizes_eraseKey {l : List (String × Item)} {k : String} {it : Item} :
    (l.map (fun p => p.1)).Nodup → mapGet l k = some it →
    sumSizes (eraseKey l k) = sumSizes l - it.size := by
  induction l with
  | nil => intro _ h; simp [mapGet] at h
  | cons p rest ih =>
    intro hnd h
    rw [List.map_cons, List.nodup_cons] at hnd
    obtain ⟨hkp, hnd'⟩ := hnd
    by_cases hpk : p.1 = k
    · rw [mapGet_cons_self hpk] at h
      have hit : p.2 = it := Option.some.inj h
      have hrestnone : mapGet rest k = none := by
        rw [mapGet_none_iff]
        intro q hq hqk
        apply hkp
        rw [hpk, ← hqk]
        exact List.mem_map_of_mem (fun p => p.1) hq
      rw [eraseKey_cons_self hpk, eraseKey_of_none hrestnone, sumSizes_cons, hit]
      omega
    · rw [mapGet_cons_ne hpk] at h
      rw [eraseKey_cons_ne hpk, sumSizes_cons, sumSizes_cons, ih hnd' h]
      omega

theorem sumSizes_filter_split (f : String × Item → Bool) (l : List (String × Item)) :
    sumSizes (l.filter f) + sumSizes (l.filter (fun p => !(f p))) = sumSizes l := by
  induction l with
  | nil => simp [sumSizes]
  | cons p rest ih =>
    by_cases hf : f p
    · simp only [List.filter_cons, hf, if_pos, Bool.not_true, Bool.false_eq_true, if_false,
        sumSizes_cons]
      omega
    · simp only [List.filter_cons, hf, Bool.false_eq_true, if_false, Bool.not_false, if_pos,
        sumSizes_cons]
      omega

theorem dropEvict_spec (target : Int) (l : List (String × Item)) :
    ∀ total : Int, total = sumSizes l →
    ∃ n : Nat, dropEvict target total l = (sumSizes (l.drop n), l.drop n) ∧
      (∀ m : Nat, m < n → target < sumSizes (l.drop m)) ∧
      (l.drop n = [] ∨ sumSizes (l.drop n) ≤ target) := by
  induction l with
  | nil =>
    intro total h
    subst h
    refine ⟨0, by simp [dropEvict], ?_, Or.inl rfl⟩
    intro m hm; omega
  | cons p rest ih =>
    intro total h
    subst h
    by_cases hle : sumSizes (p :: rest) ≤ target
    · refine ⟨0, ?_, ?_, Or.inr (by simpa using hle)⟩
      · simp only [dropEvict, if_pos hle, List.drop_zero]
      · intro m hm; omega
    · obtain ⟨n, h1, h2, h3⟩ := ih (sumSizes (p :: rest) - p.2.size)
        (by rw [sumSizes_cons]; omega)
      refine ⟨n + 1, ?_, ?_, ?_⟩
      · simp only [dropEvict, if_neg hle, List.drop_succ_cons]
        exact h1
      · intro m hm
        match m with
        | 0 =>
          rw [List.drop_zero]
          omega
        | Nat.succ m' =>
          rw [List.drop_succ_cons]
          exact h2 m' (by omega)
      · rw [List.drop_succ_cons]
        exact h3

theorem cacheKeysNodup_perm {c : MemoryCache} {l : List (String × Item)}
    (hnd : cacheKeysNodup c) (h : l.Perm c.items) : (l.map (fun p => p.1)).Nodup :=
  ((h.map (fun p => p.1)).symm.nodup) hnd

theorem prune_preserves {c : MemoryCache} (hnd : cacheKeysNodup c) (hinv : cacheSizeInv c) :
    cacheKeysNodup c.prune ∧ cacheSizeInv c.prune := by
  by_cases he : c.items.isEmpty
  · have hp : c.prune = c := by unfold MemoryCache.prune; rw [if_pos he]
    rw [hp]
    exact ⟨hnd, hinv⟩
  · have htot : c.totalSize = sumSizes (sortByExpiry c.items) :=
      hinv.trans (sumSizes_perm (sortByExpiry_perm c.items)).symm
    obtain ⟨n, h1, _, _⟩ := dropEvict_spec (pruneTarget c.maxSize) (sortByExpiry c.items)
      c.totalSize htot
    have hp : c.prune = { c with
                            totalSize := sumSizes ((sortByExpiry c.items).drop n),
                            items := (sortByExpiry c.items).drop n } := by
      unfold MemoryCache.prune
      rw [if_neg he]
      simp only [h1]
    rw [hp]
    constructor
    · exact List.Sublist.nodup
        ((List.drop_sublist n (sortByExpiry c.items)).map (fun p => p.1))
        (cacheKeysNodup_perm hnd (sortByExpiry_perm c.items))
    · rfl

theorem insertEntry_some (c : MemoryCache) (now : Int) (key : String) (data : List Nat)
    {old : Item} (h : mapGet c.items key = some old) :
    c.insertEntry now key data = { c with
                                     items := (key, ⟨data, now + c.ttl, (data.length : Int)⟩)
                                       :: eraseKey c.items key,
                                     totalSize := c.totalSize - old.size + (data.length : Int) }
    := by
  unfold MemoryCache.insertEntry
  rw [h]

theorem insertEntry_none (c : MemoryCache) (now : Int) (key : String) (data : List Nat)
    (h : mapGet c.items key = none) :
    c.insertEntry now key data = { c with
                                     items := (key, ⟨data, now + c.ttl, (data.length : Int)⟩)
                                       :: c.items,
                                     totalSize := c.totalSize + (data.length : Int) } := by
  unfold MemoryCache.insertEntry
  rw [h]

theorem insertEntry_preserves {c : MemoryCache} (now : Int) (key : String) (data : List Nat)
    (hnd : cacheKeysNodup c) (hinv : cacheSizeInv c) :
    cacheKeysNodup (c.insertEntry now key data) ∧ cacheSizeInv (c.insertEntry now key data) := by
  cases h : mapGet c.items key with
  | some old =>
    rw [insertEntry_some c now key data h]
    refine ⟨?_, ?_⟩
    · dsimp only [cacheKeysNodup]
      rw [List.map_cons, List.nodup_cons]
      exact ⟨key_not_mem_eraseKey c.items key,
        List.Sublist.nodup ((eraseKey_sublist c.items key).map (fun p => p.1)) hnd⟩
    · dsimp only [cacheSizeInv]
      rw [sumSizes_cons, sumSizes_eraseKey hnd h]
      dsimp only
      omega
  | none =>
    rw [insertEntry_none c now key data h]
    refine ⟨?_, ?_⟩
    · dsimp only [cacheKeysNodup]
      rw [List.map_cons, List.nodup_cons]
      refine ⟨fun hmem => ?_, hnd⟩
      rcases List.mem_map.mp hmem with ⟨p, hp, hk⟩
      exact (mapGet_none_iff.mp h p hp) hk
    · dsimp only [cacheSizeInv]
      rw [sumSizes_cons]
      dsimp only
      omega

theorem set_preserves {c : MemoryCache} (now : Int) (key : String) (data : List Nat)
    (hnd : cacheKeysNodup c) (hinv : cacheSizeInv c) :
    cacheKeysNodup (c.set now key data) ∧ cacheSizeInv (c.set now key data) := by
  unfold MemoryCache.set
  split
  · exact ⟨hnd, hinv⟩
  · split
    · exact ⟨hnd, hinv⟩
    · split
      · exact ⟨hnd, hinv⟩
      · split
        · obtain ⟨h1, h2⟩ := prune_preserves hnd hinv
          exact insertEntry_preserves now key data h1 h2
        · exact insertEntry_preserves now key data hnd hinv

theorem del_preserves {c : MemoryCache} (key : String)
    (hnd : cacheKeysNodup c) (hinv : cacheSizeInv c) :
    cacheKeysNodup (c.del key) ∧ cacheSizeInv (c.del key) := by
  unfold MemoryCache.del
  split
  · exact ⟨hnd, hinv⟩
  · cases h : mapGet c.items key with
    | some it =>
      constructor
      · show ((eraseKey c.items key).map (fun p => p.1)).Nodup
        exact List.Sublist.nodup ((eraseKey_sublist c.items key).map (fun p => p.1)) hnd
      · show c.totalSize - it.size = sumSizes (eraseKey c.items key)
        rw [sumSizes_eraseKey hnd h, ← hinv]
    | none => exact ⟨hnd, hinv⟩

theorem gcSweep_preserves {c : MemoryCache} (now : Int)
    (hnd : cacheKeysNodup c) (hinv : cacheSizeInv c) :
    cacheKeysNodup (c.gcSweep now) ∧ cacheSizeInv (c.gcSweep now) := by
  unfold MemoryCache.gcSweep
  split
  · exact ⟨hnd, hinv⟩
  · constructor
    · show ((c.items.filter fun p => !(expiredB now p)).map (fun p => p.1)).Nodup
      exact List.Sublist.nodup ((List.filter_sublist c.items).map (fun p => p.1)) hnd
    · show c.totalSize - sumSizes (c.items.filter (expiredB now)) =
        sumSizes (c.items.filter fun p => !(expiredB now p))
      have := sumSizes_filter_split (expiredB now) c.items
      rw [← hinv] at this
      omega

theorem applyCacheOp_preserves {c : MemoryCache} (op : CacheOp)
    (hnd : cacheKeysNodup c) (hinv : cacheSizeInv c) :
    cacheKeysNodup (applyCacheOp c op) ∧ cacheSizeInv (applyCacheOp c op) := by
  cases op with
  | setOp now key data => exact set_preserves now key data hnd hinv
  | getOp now key => exact ⟨hnd, hinv⟩
  | delOp key => exact del_preserves key hnd hinv
  | pruneOp => exact prune_preserves hnd hinv
  | gcOp now => exact gcSweep_preserves now hnd hinv

/-- C5: for the blob cache, `total_size` equals the sum of `entry.size` over
all stored entries before and after any sequence of Set, Get, Delete, prune
and GC operations (for a well-formed starting state; when the cache is
disabled all operations are no-ops and the invariant holds trivially). -/
theorem cache_total_size_invariant (c : MemoryCache) (ops : List CacheOp)
    (hnd : cacheKeysNodup c) (hinv : cacheSizeInv c) :
    cacheSizeInv (runCacheOps c ops) ∧ cacheKeysNodup (runCacheOps c ops) := by
  induction ops generalizing c with
  | nil => exact ⟨hinv, hnd⟩
  | cons op rest ih =>
    obtain ⟨h1, h2⟩ := applyCacheOp_preserves op hnd hinv
    exact ih (applyCacheOp c op) h1 h2

/-- Witness for C5 at a concrete cache and a concrete operation sequence. -/
theorem cache_total_size_invariant_witness :
    cacheKeysNodup cacheW5 ∧ cacheSizeInv cacheW5 ∧
      cacheSizeInv (runCacheOps cacheW5 cacheW5Ops) :=
  ⟨by decide, by decide,
    (cache_total_size_invariant cacheW5 cacheW5Ops (by decide) (by decide)).1⟩

/-- C6: a Set whose admitted entry would push `total_size` above `maxBytes`
prunes by ascending expiry: the survivors are a suffix of the
expiry-sorted candidate list, every evicted entry expires no later than
every survivor, the loop stops as soon as the total is at or below
0.80·maxBytes (every shorter eviction prefix leaves the total above the
target), and the Set then inserts into the pruned state. -/
theorem cache_eviction_ordering
    (c : MemoryCache) (now : Int) (key : String) (data : List Nat)
    (hen : c.enabled = true)
    (hnd : cacheKeysNodup c) (hinv : cacheSizeInv c)
    (hmax : 0 ≤ c.maxSize)
    (hadm1 : (data.length : Int) ≤ Int.tdiv c.maxSize 2)
    (hadm2 : (data.length : Int) ≤ 512 * 1024)
    (hover : c.maxSize < c.totalSize + (data.length : Int)) :
    ∃ n : Nat,
      c.prune.items = (sortByExpiry c.items).drop n ∧
      c.prune.totalSize = sumSizes ((sortByExpiry c.items).drop n) ∧
      c.prune.totalSize ≤ pruneTarget c.maxSize ∧
      (∀ m : Nat, m < n → pruneTarget c.maxSize < sumSizes ((sortByExpiry c.items).drop m)) ∧
      (∀ e ∈ (sortByExpiry c.items).take n, ∀ s ∈ (sortByExpiry c.items).drop n,
          e.2.expiresAt ≤ s.2.expiresAt) ∧
      c.set now key data = c.prune.insertEntry now key data := by
  have htarget : 0 ≤ pruneTarget c.maxSize :=
    Int.tdiv_nonneg (by omega) (by norm_num)
  have hseteq : c.set now key data = c.prune.insertEntry now key data := by
    unfold MemoryCache.set
    rw [if_neg (by simp [hen]), if_neg (by omega), if_neg (by omega), if_pos hover]
  by_cases he : c.items.isEmpty
  · have hitems : c.items = [] := List.isEmpty_iff.mp he
    have hprune : c.prune = c := by unfold MemoryCache.prune; rw [if_pos he]
    refine ⟨0, ?_, ?_, ?_, ?_, ?_, hseteq⟩
    · rw [hprune, hitems]; simp [sortByExpiry, List.insertionSort]
    · rw [hprune, hinv, hitems]
      simp [sortByExpiry, List.insertionSort]
    · rw [hprune, hinv, hitems]
      simpa [sumSizes] using htarget
    · intro m hm; omega
    · intro e he'
      rw [hitems] at he'
      simp [sortByExpiry, List.insertionSort] at he'
  · have htot : c.totalSize = sumSizes (sortByExpiry c.items) :=
      hinv.trans (sumSizes_perm (sortByExpiry_perm c.items)).symm
    obtain ⟨n, h1, h2, h3⟩ := dropEvict_spec (pruneTarget c.maxSize) (sortByExpiry c.items)
      c.totalSize htot
    have hprune : c.prune.items = (sortByExpiry c.items).drop n ∧
        c.prune.totalSize = sumSizes ((sortByExpiry c.items).drop n) := by
      unfold MemoryCache.prune
      rw [if_neg he]
      exact ⟨by rw [h1], by rw [h1]⟩
    refine ⟨n, hprune.1, hprune.2, ?_, h2, ?_, hseteq⟩
    · rw [hprune.2]
      rcases h3 with hnil | hle
      · rw [hnil]; simpa [sumSizes] using htarget
      · exact hle
    · intro e hetake s hsdrop
      exact List.Sorted.rel_of_mem_take_of_mem_drop
        (List.sorted_insertionSort expLe c.items) hetake hsdrop

/-- C4: the avatar renderer is deterministic: with the configuration and
the external pure primitives fixed, the output scene (which determines the
encoded bytes) and the MIME type do not depend on the ambient runtime
state, so repeated calls with the same non-empty seed and the same query
return byte-equal outputs and the same MIME type. -/
theorem generator_deterministic (w1 w2 : World) (env : Env) (cfg : Int)
    (name : String) (q : Query) (hname : name ≠ "") :
    GenerateImageBytes w1 env cfg name q = GenerateImageBytes w2 env cfg name q := rfl

/-- Witness for C4 at the concrete seed "octa" in two different worlds. -/
theorem generator_deterministic_witness :
    ("octa" : String) ≠ "" ∧
      GenerateImageBytes ⟨0, 0⟩ envW 360 "octa" [("size", "128")] =
        GenerateImageBytes ⟨999, 77⟩ envW 360 "octa" [("size", "128")] :=
  ⟨by decide, generator_deterministic ⟨0, 0⟩ ⟨999, 77⟩ envW 360 "octa" [("size", "128")]
    (by decide)⟩

/-- C7 counterexample: with the configured default 360, `size=-1` is not
ignored (the code clamps it to 16, the claim demands the default 360), and
supplying `w=500` alone does not set the edge length (the code keeps 360,
the claim demands 500). -/
theorem size_param_claim_false :
    resolveSize 360 [("size", "-1")] = 16 ∧ resolveSize 360 [("size", "-1")] ≠ 360 ∧
      resolveSize 360 [("w", "500")] = 360 ∧ resolveSize 360 [("w", "500")] ≠ 500 :=
  ⟨by decide, by decide, by decide, by decide⟩

/-- C7 amended: the output edge length is the `size` query parameter
clamped to [16, 1024] whenever `size` parses as an integer — size=15
yields 16, size=99999 yields 1024, and size=-1 yields 16 rather than the
default — and otherwise the configured default; the `w` parameter never
affects the result (its read in the source is a dead assignment). -/
theorem size_param_clamped (cfg : Int) (q : Query) :
    resolveSize cfg q = resolveSizeSpec cfg q ∧
      resolveSize 360 [("size", "15")] = 16 ∧
      resolveSize 360 [("size", "99999")] = 1024 ∧
      resolveSize 360 [("size", "-1")] = 16 := by
  refine ⟨?_, by decide, by decide, by decide⟩
  simp only [resolveSize, resolveSizeSpec]
  by_cases h : getQ q "size" = ""
  · rw [h]
    have ha : atoi "" = none := rfl
    rw [ha]
    simp
  · rw [if_neg h]
    cases hat : atoi (getQ q "size") with
    | none => rfl
    | some v =>
      show (if v > 1024 then (1024 : Int) else if v < 16 then 16 else v) = min 1024 (max 16 v)
      split_ifs <;> omega

/-- Witness for C6 at a concrete overflowing Set: capacity 10, three 3-byte
entries, inserting 4 more bytes evicts exactly the earliest-expiring entry. -/
theorem cache_eviction_ordering_witness :
    cacheW6.enabled = true ∧
      (∃ n : Nat,
        cacheW6.prune.items = (sortByExpiry cacheW6.items).drop n ∧
        cacheW6.prune.totalSize = sumSizes ((sortByExpiry cacheW6.items).drop n) ∧
        cacheW6.prune.totalSize ≤ pruneTarget cacheW6.maxSize ∧
        (∀ m : Nat, m < n → pruneTarget cacheW6.maxSize <
            sumSizes ((sortByExpiry cacheW6.items).drop m)) ∧
        (∀ e ∈ (sortByExpiry cacheW6.items).take n, ∀ s ∈ (sortByExpiry cacheW6.items).drop n,
            e.2.expiresAt ≤ s.2.expiresAt) ∧
        cacheW6.set 0 "d" [9, 9, 9, 9] = cacheW6.prune.insertEntry 0 "d" [9, 9, 9, 9]) :=
  ⟨rfl, cache_eviction_ordering cacheW6 0 "d" [9, 9, 9, 9] rfl (by decide) (by decide)
    (by decide) (by decide) (by decide) (by decide)⟩

/-- C1 (code bug): on a store miss `GET /u/{key}` falls back to the
generator, but the fallback renders with the internal cache key as seed
instead of the key itself: against the empty store, GET /u/unknown-key
serves render("gen:unknown-key?", q) rather than the specified
render("unknown-key", q), and the two renders differ already in the drawn
initials ("G" versus "U"). -/
theorem fallback_uses_cache_key_as_seed :
    serveUserAvatarM ⟨0, 0⟩ envW 360 emptyCacheW emptyDBW "unknown-key" [] =
      [HEvent.serveETag
        (Payload.gen (GenerateImageBytes ⟨0, 0⟩ envW 360 "gen:unknown-key?" []).1)
        "image/png"] ∧
      (GenerateImageBytes ⟨0, 0⟩ envW 360 "gen:unknown-key?" []).1.initials = "G" ∧
      (GenerateImageBytes ⟨0, 0⟩ envW 360 "unknown-key" []).1.initials = "U" := by
  refine ⟨rfl, ?_, ?_⟩ <;> decide

/-- C10: when the coalesced store fetch errors — here the alias id for
key "k" is cached while the mapping is gone from the store — the handler
emits the generator-fallback response and then, because the error branch
does not return, still evaluates the final serveWithETag with the nil data
value: the nil-data write is reachable. -/
theorem nil_serve_reachable_after_fallback :
    serveUserAvatarM ⟨0, 0⟩ envW 360 cacheW10 emptyDBW "k" [] =
      serveGeneratorFallbackM ⟨0, 0⟩ envW 360 cacheW10 "k" [] ++
        [HEvent.serveETag Payload.nil "image/png"] := rfl

/-- C2 (code bug): DeleteAPIHandler removes the asset and its mappings but
never calls appinfo.RemoveAsset, so after a successful API delete the
running totals no longer equal count and sum of the stored assets: from
one stored asset of size 100 with accurate totals (1, 100), the delete
empties the store while the totals remain (1, 100). -/
theorem api_delete_leaves_stale_stats :
    (apiDeleteById dbW2 ⟨1, 100⟩ "a").1.images.length = 0 ∧
      (apiDeleteById dbW2 ⟨1, 100⟩ "a").2 = ⟨1, 100⟩ ∧
      (apiDeleteById dbW2 ⟨1, 100⟩ "a").2.count ≠
        ((apiDeleteById dbW2 ⟨1, 100⟩ "a").1.images.length : Int) ∧
      (apiDeleteById dbW2 ⟨1, 100⟩ "a").2.size ≠
        sumImgSizes (apiDeleteById dbW2 ⟨1, 100⟩ "a").1.images := by
  refine ⟨?_, ?_, ?_, ?_⟩ <;> decide

/-- C3 (code bug): the maintenance prune deletes image rows without
removing their aliases (the declared ON DELETE CASCADE is never enforced —
the SQLite connection string enables no foreign-key enforcement — and the
cleaner, unlike both handler delete paths, issues no mapping delete): a
tick with limit 1000 and physical size 1000 over one asset of size 2000
aliased by "x" empties the images table yet leaves the alias dangling. -/
theorem prune_leaves_dangling_alias :
    (checkAndPrune 1000 1000 dbW3 ⟨1, 2000⟩).db.images = [] ∧
      (checkAndPrune 1000 1000 dbW3 ⟨1, 2000⟩).db.mappings = [⟨"x", "a", 0⟩] ∧
      danglingMappings (checkAndPrune 1000 1000 dbW3 ⟨1, 2000⟩).db = [⟨"x", "a", 0⟩] := by
  refine ⟨?_, ?_, ?_⟩ <;> decide

/-- C9 counterexample: a prune tick (limit 1000, physical 1000) over one
old asset of size 3000 aliased by "y" deletes the asset, yet the returned
totals are unchanged (still counting one asset of 3000 bytes, instead of
the claimed stats update) and the alias of the deleted asset survives
(instead of the claimed cascade). -/
theorem cleaner_claim_false :
    (checkAndPrune 1000 1000 dbW9 ⟨1, 3000⟩).db.images = [] ∧
      (checkAndPrune 1000 1000 dbW9 ⟨1, 3000⟩).stats = ⟨1, 3000⟩ ∧
      (checkAndPrune 1000 1000 dbW9 ⟨1, 3000⟩).stats.count ≠
        ((checkAndPrune 1000 1000 dbW9 ⟨1, 3000⟩).db.images.length : Int) ∧
      (checkAndPrune 1000 1000 dbW9 ⟨1, 3000⟩).db.mappings = [⟨"y", "old", 0⟩] := by
  refine ⟨?_, ?_, ?_, ?_⟩ <;> decide

/-! Upload lemmas (claim C8). -/

theorem find?_append_some {α : Type} (p : α → Bool) {l1 : List α} (l2 : List α) {x : α}
    (h : l1.find? p = some x) : (l1 ++ l2).find? p = some x := by
  induction l1 with
  | nil => simp at h
  | cons a rest ih =>
    rw [List.cons_append]
    by_cases hp : p a
    · rw [List.find?_cons_of_pos _ hp] at h ⊢
      exact h
    · rw [List.find?_cons_of_neg _ hp] at h ⊢
      exact ih h

theorem find?_append_not {α : Type} (p : α → Bool) (l : List α) {x : α} (hx : ¬ p x) :
    (l ++ [x]).find? p = l.find? p := by
  induction l with
  | nil => simp [List.find?_cons_of_neg _ hx]
  | cons a rest ih =>
    rw [List.cons_append]
    by_cases hp : p a
    · rw [List.find?_cons_of_pos _ hp, List.find?_cons_of_pos _ hp]
    · rw [List.find?_cons_of_neg _ hp, List.find?_cons_of_neg _ hp]
      exact ih

theorem secondaryPass_cons_some {target : String} {now : Int} {k2 : String}
    {rest : List String} {db : DBState} {cm : KeyMapping}
    (h : lookupMapping db k2 = some cm) :
    secondaryPass target now (k2 :: rest) db =
      (if cm.imageId = target
        then ((secondaryPass target now rest db).1, k2 :: (secondaryPass target now rest db).2)
        else ((secondaryPass target now rest db).1, (secondaryPass target now rest db).2)) := by
  simp only [secondaryPass, h]

theorem secondaryPass_cons_none {target : String} {now : Int} {k2 : String}
    {rest : List String} {db : DBState} (h : lookupMapping db k2 = none) :
    secondaryPass target now (k2 :: rest) db =
      ((secondaryPass target now rest ⟨db.images, db.mappings ++ [⟨k2, target, now⟩]⟩).1,
        k2 :: (secondaryPass target now rest ⟨db.images, db.mappings ++ [⟨k2, target, now⟩]⟩).2)
    := by
  simp only [secondaryPass, h]

theorem secondaryPass_spec (target : String) (now : Int) (ks : List String) :
    ∀ (db : DBState) (k : String) (m : KeyMapping),
      lookupMapping db k = some m → m.imageId ≠ target →
      (secondaryPass target now ks db).1.images = db.images ∧
      lookupMapping (secondaryPass target now ks db).1 k = some m ∧
      k ∉ (secondaryPass target now ks db).2 := by
  induction ks with
  | nil =>
    intro db k m hm hne
    exact ⟨rfl, hm, by simp [secondaryPass]⟩
  | cons k2 rest ih =>
    intro db k m hm hne
    cases h2 : lookupMapping db k2 with
    | some cm =>
      rw [secondaryPass_cons_some h2]
      obtain ⟨h1, hl, hnm⟩ := ih db k m hm hne
      by_cases hcm : cm.imageId = target
      · rw [if_pos hcm]
        refine ⟨h1, hl, ?_⟩
        intro hk
        rcases List.mem_cons.mp hk with hk2 | hk2
        · subst hk2
          rw [hm] at h2
          exact hne ((Option.some.inj h2) ▸ hcm)
        · exact hnm hk2
      · rw [if_neg hcm]
        exact ⟨h1, hl, hnm⟩
    | none =>
      rw [secondaryPass_cons_none h2]
      have hm' : lookupMapping ⟨db.images, db.mappings ++ [⟨k2, target, now⟩]⟩ k = some m :=
        find?_append_some _ _ hm
      obtain ⟨h1, hl, hnm⟩ := ih ⟨db.images, db.mappings ++ [⟨k2, target, now⟩]⟩ k m hm' hne
      refine ⟨h1, hl, ?_⟩
      intro hk
      rcases List.mem_cons.mp hk with hk2 | hk2
      · subst hk2
        rw [hm] at h2
        exact Option.noConfusion h2
      · exact hnm hk2

theorem find?_cons_eq_of_pos {α : Type} (p : α → Bool) (a : α) (l : List α)
    (h : p a = true) : (a :: l).find? p = some a :=
  List.find?_cons_of_pos l h

theorem find?_cons_eq_of_neg {α : Type} (p : α → Bool) (a : α) (l : List α)
    (h : p a = false) : (a :: l).find? p = l.find? p :=
  List.find?_cons_of_neg l (by simp [h])

theorem findImage_updImage (imgs : List Image) (data : List Nat) (meta : ImageMeta)
    (now : Int) (target mid : String) (hne : mid ≠ target) :
    (imgs.map (updImage data meta now target)).find? (fun i => i.id == mid) =
      imgs.find? (fun i => i.id == mid) := by
  induction imgs with
  | nil => rfl
  | cons i rest ih =>
    rw [List.map_cons]
    by_cases hit : i.id = target
    · have hu : updImage data meta now target i =
          { i with data := data, width := meta.width, height := meta.height,
                   format := meta.format, size := meta.size, updatedAt := now } := by
        unfold updImage
        rw [if_pos hit]
      have h1 : ((updImage data meta now target i).id == mid) = false := by
        rw [hu]
        show (i.id == mid) = false
        simp [hit, Ne.symm hne]
      have h2 : (i.id == mid) = false := by simp [hit, Ne.symm hne]
      rw [find?_cons_eq_of_neg (fun i => i.id == mid) (updImage data meta now target i)
            (rest.map (updImage data meta now target)) h1,
          find?_cons_eq_of_neg (fun i => i.id == mid) i rest h2]
      exact ih
    · have hu : updImage data meta now target i = i := by
        unfold updImage
        rw [if_neg hit]
      rw [hu]
      by_cases hm : (i.id == mid) = true
      · rw [find?_cons_eq_of_pos (fun i => i.id == mid) i
              (rest.map (updImage data meta now target)) hm,
            find?_cons_eq_of_pos (fun i => i.id == mid) i rest hm]
      · rw [find?_cons_eq_of_neg (fun i => i.id == mid) i
              (rest.map (updImage data meta now target)) (by simpa using hm),
            find?_cons_eq_of_neg (fun i => i.id == mid) i rest (by simpa using hm)]
        exact ih

theorem uploadTxCore_some {db : DBState} {st : Stats} {primaryKey : String}
    {secondary : List String} {data : List Nat} {meta : ImageMeta} {newId : String}
    {now : Int} {existing : KeyMapping} (h : lookupMapping db primaryKey = some existing) :
    uploadTxCore db st primaryKey secondary data meta newId now =
      { db := (secondaryPass existing.imageId now secondary
                ⟨db.images.map (updImage data meta now existing.imageId), db.mappings⟩).1,
        stats := AddAsset
          (RemoveAsset st (((findImage db existing.imageId).map (fun i => i.size)).getD 0))
          meta.size,
        action := "updated", avatarId := existing.imageId,
        assignedKeys := primaryKey :: (secondaryPass existing.imageId now secondary
          ⟨db.images.map (updImage data meta now existing.imageId), db.mappings⟩).2 } := by
  simp only [uploadTxCore, h]

theorem uploadTxCore_none {db : DBState} {st : Stats} {primaryKey : String}
    {secondary : List String} {data : List Nat} {meta : ImageMeta} {newId : String}
    {now : Int} (h : lookupMapping db primaryKey = none) :
    uploadTxCore db st primaryKey secondary data meta newId now =
      { db := (secondaryPass newId now secondary
                ⟨db.images ++ [⟨newId, data, meta.width, meta.height, meta.format,
                                meta.size, now, now⟩],
                 db.mappings ++ [⟨primaryKey, newId, now⟩]⟩).1,
        stats := AddAsset st meta.size,
        action := "created", avatarId := newId,
        assignedKeys := primaryKey :: (secondaryPass newId now secondary
          ⟨db.images ++ [⟨newId, data, meta.width, meta.height, meta.format,
                          meta.size, now, now⟩],
           db.mappings ++ [⟨primaryKey, newId, now⟩]⟩).2 } := by
  simp only [uploadTxCore, h]

/-- C8: during upload, a secondary key that already maps to a different
asset is ignored: its alias is neither reassigned nor deleted, it is
omitted from the assigned keys of the response, the bytes served for it
are unchanged, and when the primary alias is new the response action is
"created". -/
theorem upload_alias_non_theft
    (db : DBState) (st : Stats) (primaryKey : String) (secondary : List String)
    (data : List Nat) (meta : ImageMeta) (newId : String) (now : Int)
    (k : String) (m : KeyMapping)
    (hk : k ∈ secondary)
    (hmap : lookupMapping db k = some m)
    (hdiff : uploadTarget db primaryKey newId ≠ m.imageId) :
    uploadTx db st (primaryKey :: secondary) data meta newId now =
      some (uploadTxCore db st primaryKey secondary data meta newId now) ∧
    k ∉ (uploadTxCore db st primaryKey secondary data meta newId now).assignedKeys ∧
    lookupMapping (uploadTxCore db st primaryKey secondary data meta newId now).db k = some m ∧
    dbServe (uploadTxCore db st primaryKey secondary data meta newId now).db k = dbServe db k ∧
    (lookupMapping db primaryKey = none →
      (uploadTxCore db st primaryKey secondary data meta newId now).action = "created") := by
  refine ⟨rfl, ?_⟩
  cases hpk : lookupMapping db primaryKey with
  | some existing =>
    have htarget : uploadTarget db primaryKey newId = existing.imageId := by
      unfold uploadTarget
      rw [hpk]
    rw [htarget] at hdiff
    have hne : m.imageId ≠ existing.imageId := Ne.symm hdiff
    rw [uploadTxCore_some hpk]
    have hm1 : lookupMapping
        ⟨db.images.map (updImage data meta now existing.imageId), db.mappings⟩ k = some m :=
      hmap
    obtain ⟨h1, hl, hnm⟩ := secondaryPass_spec existing.imageId now secondary
      ⟨db.images.map (updImage data meta now existing.imageId), db.mappings⟩ k m hm1 hne
    have hfi : findImage (secondaryPass existing.imageId now secondary
        ⟨db.images.map (updImage data meta now existing.imageId), db.mappings⟩).1 m.imageId =
        findImage db m.imageId := by
      unfold findImage
      rw [h1]
      exact findImage_updImage db.images data meta now existing.imageId m.imageId hne
    refine ⟨?_, hl, ?_, ?_⟩
    · intro hkmem
      rcases List.mem_cons.mp hkmem with hkp | hks
      · subst hkp
        rw [hmap] at hpk
        exact hne (congrArg KeyMapping.imageId (Option.some.inj hpk))
      · exact hnm hks
    · unfold dbServe
      rw [hl, hmap]
      simp only [Option.some_bind]
      rw [hfi]
    · intro hnone
      simp [hpk] at hnone
  | none =>
    have htarget : uploadTarget db primaryKey newId = newId := by
      unfold uploadTarget
      rw [hpk]
    rw [htarget] at hdiff
    have hne : m.imageId ≠ newId := Ne.symm hdiff
    rw [uploadTxCore_none hpk]
    have hm1 : lookupMapping
        ⟨db.images ++ [⟨newId, data, meta.width, meta.height, meta.format, meta.size, now, now⟩],
         db.mappings ++ [⟨primaryKey, newId, now⟩]⟩ k = some m :=
      find?_append_some _ _ hmap
    obtain ⟨h1, hl, hnm⟩ := secondaryPass_spec newId now secondary
      ⟨db.images ++ [⟨newId, data, meta.width, meta.height, meta.format, meta.size, now, now⟩],
       db.mappings ++ [⟨primaryKey, newId, now⟩]⟩ k m hm1 hne
    have hfi : findImage (secondaryPass newId now secondary
        ⟨db.images ++ [⟨newId, data, meta.width, meta.height, meta.format, meta.size, now, now⟩],
         db.mappings ++ [⟨primaryKey, newId, now⟩]⟩).1 m.imageId = findImage db m.imageId := by
      unfold findImage
      rw [h1]
      exact find?_append_not _ db.images (by simpa using Ne.symm hne)
    refine ⟨?_, hl, ?_, fun _ => rfl⟩
    · intro hkmem
      rcases List.mem_cons.mp hkmem with hkp | hks
      · subst hkp
        rw [hmap] at hpk
        exact Option.noConfusion hpk
      · exact hnm hks
    · unfold dbServe
      rw [hl, hmap]
      simp only [Option.some_bind]
      rw [hfi]

/-- Witness for C8: upload #1 with keys=x creates asset A1 (bytes [1]);
upload #2 with keys=y,x and a different file creates asset A2 reporting
action "created" with assigned keys [y], while the alias x still maps to
A1 and GET /u/x still serves upload #1 bytes. -/
theorem upload_alias_non_theft_witness :
    uploadTx ⟨[], []⟩ ⟨0, 0⟩ ["x"] [1] metaW "A1" 0 =
      some ⟨dbW8, ⟨1, 1⟩, "created", "A1", ["x"]⟩ ∧
    (uploadTxCore dbW8 ⟨1, 1⟩ "y" ["x"] [2] metaW "A2" 1).assignedKeys = ["y"] ∧
    dbServe dbW8 "x" = some [1] ∧
    ("x" ∈ ["x"] ∧
      uploadTx dbW8 ⟨1, 1⟩ ["y", "x"] [2] metaW "A2" 1 =
        some (uploadTxCore dbW8 ⟨1, 1⟩ "y" ["x"] [2] metaW "A2" 1) ∧
      "x" ∉ (uploadTxCore dbW8 ⟨1, 1⟩ "y" ["x"] [2] metaW "A2" 1).assignedKeys ∧
      lookupMapping (uploadTxCore dbW8 ⟨1, 1⟩ "y" ["x"] [2] metaW "A2" 1).db "x" =
        some ⟨"x", "A1", 0⟩ ∧
      dbServe (uploadTxCore dbW8 ⟨1, 1⟩ "y" ["x"] [2] metaW "A2" 1).db "x" = dbServe dbW8 "x" ∧
      (lookupMapping dbW8 "y" = none →
        (uploadTxCore dbW8 ⟨1, 1⟩ "y" ["x"] [2] metaW "A2" 1).action = "created")) :=
  ⟨by decide, by decide, by decide,
    ⟨by decide,
      (upload_alias_non_theft dbW8 ⟨1, 1⟩ "y" ["x"] [2] metaW "A2" 1 "x" ⟨"x", "A1", 0⟩
        (by decide) (by decide) (by decide)).1,
      ((upload_alias_non_theft dbW8 ⟨1, 1⟩ "y" ["x"] [2] metaW "A2" 1 "x" ⟨"x", "A1", 0⟩
        (by decide) (by decide) (by decide)).2).1,
      (((upload_alias_non_theft dbW8 ⟨1, 1⟩ "y" ["x"] [2] metaW "A2" 1 "x" ⟨"x", "A1", 0⟩
        (by decide) (by decide) (by decide)).2).2).1,
      ((((upload_alias_non_theft dbW8 ⟨1, 1⟩ "y" ["x"] [2] metaW "A2" 1 "x" ⟨"x", "A1", 0⟩
        (by decide) (by decide) (by decide)).2).2).2).1,
      ((((upload_alias_non_theft dbW8 ⟨1, 1⟩ "y" ["x"] [2] metaW "A2" 1 "x" ⟨"x", "A1", 0⟩
        (by decide) (by decide) (by decide)).2).2).2).2⟩⟩

/-! Maintenance-worker lemmas (claim C9). -/

theorem sumImgSizes_perm {l1 l2 : List Image} (h : l1.Perm l2) :
    sumImgSizes l1 = sumImgSizes l2 :=
  List.Perm.sum_eq (h.map (fun i => i.size))

theorem sumImgSizes_append (l1 l2 : List Image) :
    sumImgSizes (l1 ++ l2) = sumImgSizes l1 + sumImgSizes l2 := by
  simp [sumImgSizes]

theorem sortByUpdated_perm (l : List Image) : (sortByUpdated l).Perm l :=
  List.perm_insertionSort updLe l

theorem filter_take_drop_split (l : List Image) (ids : List String)
    (htake : (l.take 50).filter (fun i => !(decide (i.id ∈ ids))) = [])
    (hdrop : (l.drop 50).filter (fun i => !(decide (i.id ∈ ids))) = l.drop 50) :
    l.filter (fun i => !(decide (i.id ∈ ids))) = l.drop 50 := by
  conv_lhs => rw [← List.take_append_drop 50 l]
  rw [List.filter_append, htake, hdrop, List.nil_append]

theorem deleteBatch_perm (imgs : List Image)
    (hnd : (imgs.map (fun i => i.id)).Nodup) :
    (deleteImagesById (((sortByUpdated imgs).take 50).map (fun i => i.id)) imgs).Perm
      ((sortByUpdated imgs).drop 50) := by
  have hperm : (sortByUpdated imgs).Perm imgs := sortByUpdated_perm imgs
  have hndS : ((sortByUpdated imgs).map (fun i => i.id)).Nodup :=
    ((hperm.map (fun i => i.id)).symm).nodup hnd
  have hsplit : (sortByUpdated imgs).map (fun i => i.id) =
      ((sortByUpdated imgs).take 50).map (fun i => i.id) ++
        ((sortByUpdated imgs).drop 50).map (fun i => i.id) := by
    rw [← List.map_append, List.take_append_drop]
  have htake : ((sortByUpdated imgs).take 50).filter
      (fun i => !(decide (i.id ∈ ((sortByUpdated imgs).take 50).map (fun i => i.id)))) = [] := by
    rw [List.filter_eq_nil_iff]
    intro i hi hbad
    have hmem : i.id ∈ ((sortByUpdated imgs).take 50).map (fun i => i.id) :=
      List.mem_map_of_mem (fun i => i.id) hi
    rw [decide_eq_true hmem] at hbad
    exact Bool.noConfusion hbad
  have hdrop : ((sortByUpdated imgs).drop 50).filter
      (fun i => !(decide (i.id ∈ ((sortByUpdated imgs).take 50).map (fun i => i.id)))) =
      (sortByUpdated imgs).drop 50 := by
    rw [List.filter_eq_self]
    intro i hi
    have hnotin : ¬ i.id ∈ ((sortByUpdated imgs).take 50).map (fun i => i.id) := by
      intro hmem
      rw [hsplit] at hndS
      rcases List.nodup_append.mp hndS with ⟨_, _, hdis⟩
      rcases List.mem_map.mp hmem with ⟨j, hj, hjid⟩
      exact hdis (hjid ▸ List.mem_map_of_mem (fun i => i.id) hj)
        (List.mem_map_of_mem (fun i => i.id) hi)
    show (!(decide (i.id ∈ ((sortByUpdated imgs).take 50).map (fun i => i.id)))) = true
    rw [decide_eq_false hnotin]
    rfl
  have hfil := filter_take_drop_split (sortByUpdated imgs)
    (((sortByUpdated imgs).take 50).map (fun i => i.id)) htake hdrop
  have hpf : (deleteImagesById (((sortByUpdated imgs).take 50).map (fun i => i.id)) imgs).Perm
      ((sortByUpdated imgs).filter
        (fun i => !(decide (i.id ∈ ((sortByUpdated imgs).take 50).map (fun i => i.id))))) :=
    (hperm.symm).filter _
  rw [hfil] at hpf
  exact hpf

theorem batch_empty_imgs_empty {imgs : List Image}
    (h : ((sortByUpdated imgs).take 50).isEmpty = true) : imgs = [] := by
  rw [List.isEmpty_iff] at h
  have hs : sortByUpdated imgs = [] := by
    cases hs : sortByUpdated imgs with
    | nil => rfl
    | cons a l =>
      rw [hs] at h
      simp at h
  have : ([] : List Image).Perm imgs := hs ▸ sortByUpdated_perm imgs
  exact (List.perm_nil.mp this.symm)

theorem pruneLoopDB_succ_stop {toRemove : Int} {fuel : Nat} {freed : Int} {imgs : List Image}
    (h : toRemove ≤ freed) : pruneLoopDB toRemove (fuel + 1) freed imgs = (imgs, freed, 0) := by
  simp only [pruneLoopDB, if_pos h]

theorem pruneLoopDB_succ_empty {toRemove : Int} {fuel : Nat} {freed : Int} {imgs : List Image}
    (h1 : ¬ toRemove ≤ freed) (h2 : ((sortByUpdated imgs).take 50).isEmpty = true) :
    pruneLoopDB toRemove (fuel + 1) freed imgs = (imgs, freed, 0) := by
  simp only [pruneLoopDB, if_neg h1, h2, if_pos]

theorem pruneLoopDB_succ_go {toRemove : Int} {fuel : Nat} {freed : Int} {imgs : List Image}
    (h1 : ¬ toRemove ≤ freed) (h2 : ¬ ((sortByUpdated imgs).take 50).isEmpty = true) :
    pruneLoopDB toRemove (fuel + 1) freed imgs =
      ((pruneLoopDB toRemove fuel (freed + sumImgSizes ((sortByUpdated imgs).take 50))
          (deleteImagesById (((sortByUpdated imgs).take 50).map (fun i => i.id)) imgs)).1,
        (pruneLoopDB toRemove fuel (freed + sumImgSizes ((sortByUpdated imgs).take 50))
          (deleteImagesById (((sortByUpdated imgs).take 50).map (fun i => i.id)) imgs)).2.1,
        (pruneLoopDB toRemove fuel (freed + sumImgSizes ((sortByUpdated imgs).take 50))
          (deleteImagesById (((sortByUpdated imgs).take 50).map (fun i => i.id)) imgs)).2.2 + 1)
    := by
  simp only [pruneLoopDB, if_neg h1, if_neg h2]

theorem pruneLoopDB_spec (toRemove : Int) :
    ∀ (fuel : Nat) (freed : Int) (imgs : List Image),
      (imgs.map (fun i => i.id)).Nodup →
      ((pruneLoopDB toRemove fuel freed imgs).1.map (fun i => i.id)).Nodup ∧
      (∀ s ∈ (pruneLoopDB toRemove fuel freed imgs).1, s ∈ imgs) ∧
      (pruneLoopDB toRemove fuel freed imgs).2.1 =
        freed + (sumImgSizes imgs - sumImgSizes (pruneLoopDB toRemove fuel freed imgs).1) ∧
      (∀ d ∈ imgs, d ∉ (pruneLoopDB toRemove fuel freed imgs).1 →
        ∀ s ∈ (pruneLoopDB toRemove fuel freed imgs).1, d.updatedAt ≤ s.updatedAt) ∧
      (toRemove ≤ (pruneLoopDB toRemove fuel freed imgs).2.1 ∨
        (pruneLoopDB toRemove fuel freed imgs).1 = [] ∨
        (pruneLoopDB toRemove fuel freed imgs).2.2 = fuel) := by
  intro fuel
  induction fuel with
  | zero =>
    intro freed imgs hnd
    refine ⟨hnd, fun s hs => hs, by simp [pruneLoopDB], ?_, Or.inr (Or.inr rfl)⟩
    intro d hd hnotin
    exact absurd hd hnotin
  | succ fuel ih =>
    intro freed imgs hnd
    by_cases hstop : toRemove ≤ freed
    · rw [pruneLoopDB_succ_stop hstop]
      refine ⟨hnd, fun s hs => hs, by simp, ?_, Or.inl hstop⟩
      intro d hd hnotin
      exact absurd hd hnotin
    · by_cases hempty : ((sortByUpdated imgs).take 50).isEmpty = true
      · rw [pruneLoopDB_succ_empty hstop hempty]
        refine ⟨hnd, fun s hs => hs, by simp, ?_, Or.inr (Or.inl (batch_empty_imgs_empty hempty))⟩
        intro d hd hnotin
        exact absurd hd hnotin
      · rw [pruneLoopDB_succ_go hstop hempty]
        dsimp only
        have hndA : ((deleteImagesById (((sortByUpdated imgs).take 50).map (fun i => i.id))
            imgs).map (fun i => i.id)).Nodup :=
          List.Sublist.nodup ((List.filter_sublist imgs).map (fun i => i.id)) hnd
        obtain ⟨ihnd, ihsub, ihfreed, ihsep, ihstop⟩ :=
          ih (freed + sumImgSizes ((sortByUpdated imgs).take 50))
            (deleteImagesById (((sortByUpdated imgs).take 50).map (fun i => i.id)) imgs) hndA
        have hpermA := deleteBatch_perm imgs hnd
        have hpermS := sortByUpdated_perm imgs
        have e0 : sumImgSizes (sortByUpdated imgs) = sumImgSizes imgs := sumImgSizes_perm hpermS
        have e1 : sumImgSizes (sortByUpdated imgs) =
            sumImgSizes ((sortByUpdated imgs).take 50) +
              sumImgSizes ((sortByUpdated imgs).drop 50) := by
          conv_lhs => rw [← List.take_append_drop 50 (sortByUpdated imgs)]
          exact sumImgSizes_append _ _
        have e2 : sumImgSizes (deleteImagesById
            (((sortByUpdated imgs).take 50).map (fun i => i.id)) imgs) =
            sumImgSizes ((sortByUpdated imgs).drop 50) := sumImgSizes_perm hpermA
        refine ⟨ihnd, ?_, ?_, ?_, ?_⟩
        · intro s hs
          exact List.mem_of_mem_filter (ihsub s hs)
        · rw [ihfreed]
          omega
        · intro d hd hnotin s hs
          have hdS : d ∈ sortByUpdated imgs := hpermS.mem_iff.mpr hd
          rw [← List.take_append_drop 50 (sortByUpdated imgs)] at hdS
          rcases List.mem_append.mp hdS with hdt | hdd
          · have hsA := ihsub s hs
            have hsD : s ∈ (sortByUpdated imgs).drop 50 := hpermA.mem_iff.mp hsA
            exact List.Sorted.rel_of_mem_take_of_mem_drop
              (List.sorted_insertionSort updLe imgs) hdt hsD
          · have hdA : d ∈ deleteImagesById
                (((sortByUpdated imgs).take 50).map (fun i => i.id)) imgs :=
              hpermA.mem_iff.mpr hdd
            exact ihsep d hdA hnotin s hs
        · rcases ihstop with h | h | h
          · exact Or.inl h
          · exact Or.inr (Or.inl h)
          · exact Or.inr (Or.inr (by rw [h]))

theorem checkAndPrune_prune_eq {limit physical : Int} {db : DBState} {st : Stats}
    (h1 : ¬ physical < limit)
    (h2 : ¬ physical < 2 * (physical - sumImgSizes db.images))
    (h3 : ¬ sumImgSizes db.images - cleanerTarget limit ≤ 0) :
    checkAndPrune limit physical db st =
      ⟨⟨(pruneLoopDB (sumImgSizes db.images - cleanerTarget limit) 1000 0 db.images).1,
        db.mappings⟩, st,
        CleanerAction.pruned
          (pruneLoopDB (sumImgSizes db.images - cleanerTarget limit) 1000 0 db.images).2.2⟩ := by
  simp only [checkAndPrune, if_neg h1, if_neg h2, if_neg h3]

/-- C9 amended: one maintenance tick satisfies `CleanerTickSpec`: below
MAX_SIZE nothing happens; at or above it the worker compacts (checkpoint
plus VACUUM) exactly when empty space exceeds half the physical size, and
otherwise prunes the oldest assets by `updated_at` in batches of 50 until
`logical − 0.85·MAX_SIZE` bytes are freed, the table is exhausted, or the
1000-iteration guard fires — but, amending the original claim, the prune
neither updates the running totals nor removes the aliases of the deleted
assets (the 50 ms inter-batch sleep is untimed in this model). -/
theorem cleaner_tick (limit physical : Int) (db : DBState) (st : Stats)
    (hnd : (db.images.map (fun i => i.id)).Nodup) :
    CleanerTickSpec limit physical db st (checkAndPrune limit physical db st) := by
  refine ⟨?_, ?_, ?_, ?_⟩
  · intro h
    simp only [checkAndPrune, if_pos h]
  · intro h1 h2
    simp only [checkAndPrune, if_neg (not_lt.mpr h1), if_pos h2]
  · intro h1 h2 h3
    simp only [checkAndPrune, if_neg (not_lt.mpr h1), if_neg (not_lt.mpr h2), if_pos h3]
  · intro h1 h2 h3
    rw [checkAndPrune_prune_eq (not_lt.mpr h1) (not_lt.mpr h2) (not_le.mpr h3)]
    dsimp only
    obtain ⟨_, hsub, hfreed, hsep, hstop⟩ :=
      pruneLoopDB_spec (sumImgSizes db.images - cleanerTarget limit) 1000 0 db.images hnd
    refine ⟨rfl, rfl, hsub, hsep, ?_⟩
    rcases hstop with h | h | h
    · rw [hfreed] at h
      exact Or.inl (by omega)
    · exact Or.inr (Or.inl h)
    · exact Or.inr (Or.inr (by rw [h]))

/-- Witness for C9 at a concrete prune tick: limit 1000, physical 1000,
two assets of size 600 each; the tick prunes both in one batch. -/
theorem cleaner_tick_witness :
    (dbW9c.images.map (fun i => i.id)).Nodup ∧
      CleanerTickSpec 1000 1000 dbW9c ⟨2, 1200⟩ (checkAndPrune 1000 1000 dbW9c ⟨2, 1200⟩) :=
  ⟨by decide, cleaner_tick 1000 1000 dbW9c ⟨2, 1200⟩ (by decide)⟩

end Octa
